import Mathlib

/-!
Verification of the in-memory mock document database of the
Mergington High School activity-signup repository.

The repository has two Python modules, `src/backend/database.py` and
`src/backend/database_memory.py`, each defining a `MockCollection`
class over a mutable dictionary together with an `init_database`
seeding routine.  This file gives a shallow embedding of both modules:

* `Value` models a Python value as used by the modules (strings,
  integers, lists, string-keyed dictionaries);
* documents and stores are ordered association lists, mirroring the
  insertion-ordered Python `dict`;
* operations that can raise a Python exception (`TypeError` on a
  non-container operand of `in`, subscripting a non-dict by a string,
  `KeyError` from `pop`, `.append`/`.remove`/`.items()` on a wrong
  type, comparison of incomparable values) return `Option`, with
  `none` standing for a raised exception;
* `DB` embeds `database.py`, `Mem` embeds `database_memory.py`.
-/

/-- A Python value as stored and queried by the mock database:
string, integer, list, or string-keyed dictionary (in insertion
order, as Python dictionaries are ordered). -/
inductive Value : Type where
  | str : String → Value
  | int : Int → Value
  | list : List Value → Value
  | obj : List (String × Value) → Value
deriving Repr

mutual
/-- Decidable equality of values (structural, matching Python `==`
on these shapes); written by hand because `deriving` does not handle
the nested occurrences of `List`. -/
def Value.decEq : (a b : Value) → Decidable (a = b)
  | .str a, .str b =>
    match String.decEq a b with
    | isTrue h => isTrue (by rw [h])
    | isFalse h => isFalse (by intro hh; cases hh; exact h rfl)
  | .int a, .int b =>
    match Int.decEq a b with
    | isTrue h => isTrue (by rw [h])
    | isFalse h => isFalse (by intro hh; cases hh; exact h rfl)
  | .list a, .list b =>
    match Value.decEqList a b with
    | isTrue h => isTrue (by rw [h])
    | isFalse h => isFalse (by intro hh; cases hh; exact h rfl)
  | .obj a, .obj b =>
    match Value.decEqObj a b with
    | isTrue h => isTrue (by rw [h])
    | isFalse h => isFalse (by intro hh; cases hh; exact h rfl)
  | .str _, .int _ => isFalse (by intro h; cases h)
  | .str _, .list _ => isFalse (by intro h; cases h)
  | .str _, .obj _ => isFalse (by intro h; cases h)
  | .int _, .str _ => isFalse (by intro h; cases h)
  | .int _, .list _ => isFalse (by intro h; cases h)
  | .int _, .obj _ => isFalse (by intro h; cases h)
  | .list _, .str _ => isFalse (by intro h; cases h)
  | .list _, .int _ => isFalse (by intro h; cases h)
  | .list _, .obj _ => isFalse (by intro h; cases h)
  | .obj _, .str _ => isFalse (by intro h; cases h)
  | .obj _, .int _ => isFalse (by intro h; cases h)
  | .obj _, .list _ => isFalse (by intro h; cases h)

/-- Decidable equality of value lists, mutual with `Value.decEq`. -/
def Value.decEqList : (a b : List Value) → Decidable (a = b)
  | [], [] => isTrue rfl
  | [], _ :: _ => isFalse (by intro h; cases h)
  | _ :: _, [] => isFalse (by intro h; cases h)
  | x :: xs, y :: ys =>
    match Value.decEq x y, Value.decEqList xs ys with
    | isTrue h1, isTrue h2 => isTrue (by rw [h1, h2])
    | isFalse h1, _ => isFalse (by intro h; cases h; exact h1 rfl)
    | isTrue _, isFalse h2 => isFalse (by intro h; cases h; exact h2 rfl)

/-- Decidable equality of field lists, mutual with `Value.decEq`. -/
def Value.decEqObj : (a b : List (String × Value)) → Decidable (a = b)
  | [], [] => isTrue rfl
  | [], _ :: _ => isFalse (by intro h; cases h)
  | _ :: _, [] => isFalse (by intro h; cases h)
  | (k, x) :: xs, (l, y) :: ys =>
    match String.decEq k l, Value.decEq x y, Value.decEqObj xs ys with
    | isTrue hk, isTrue h1, isTrue h2 => isTrue (by rw [hk, h1, h2])
    | isFalse hk, _, _ => isFalse (by intro h; cases h; exact hk rfl)
    | isTrue _, isFalse h1, _ => isFalse (by intro h; cases h; exact h1 rfl)
    | isTrue _, isTrue _, isFalse h2 => isFalse (by intro h; cases h; exact h2 rfl)
end

instance : DecidableEq Value := Value.decEq

/-- A document body: a Python dictionary from field names to values. -/
abbrev Doc := List (String × Value)

/-- A collection store: the Python dictionary from `_id` values to
document bodies backing a `MockCollection`. -/
abbrev Store := List (Value × Doc)

/-- Lookup in an association list (first matching key), mirroring
Python dictionary indexing for present keys. -/
def assocGet {α β : Type} [DecidableEq α] : List (α × β) → α → Option β
  | [], _ => none
  | (k, v) :: rest, key => if k = key then some v else assocGet rest key

/-- Python dictionary assignment `d[k] = v`: replaces the value in
place if the key is present (keeping its position), otherwise appends
the new key at the end, as insertion-ordered dictionaries do. -/
def assocSet {α β : Type} [DecidableEq α] : List (α × β) → α → β → List (α × β)
  | [], key, v => [(key, v)]
  | (k, w) :: rest, key, v =>
    if k = key then (k, v) :: rest else (k, w) :: assocSet rest key v

/-- Python `d.pop(k)`-style removal of the (unique) entry for a key,
keeping the order of the other entries. -/
def assocErase {α β : Type} [DecidableEq α] : List (α × β) → α → List (α × β)
  | [], _ => []
  | (k, v) :: rest, key =>
    if k = key then rest else (k, v) :: assocErase rest key

/-- Whether a key is present, mirroring Python `k in d` for a dict. -/
def assocHas {α β : Type} [DecidableEq α] (m : List (α × β)) (k : α) : Bool :=
  (assocGet m k).isSome

/-- Whether the character list `n` occurs contiguously in `h`,
starting at the front. -/
def charsStartWith : List Char → List Char → Bool
  | [], _ => true
  | _ :: _, [] => false
  | a :: as, b :: bs => a = b && charsStartWith as bs

/-- Whether the character list `n` occurs contiguously anywhere in
`h`; the empty list occurs in everything, as for Python substrings. -/
def charsOccurIn (n : List Char) : List Char → Bool
  | [] => n.isEmpty
  | b :: bs => charsStartWith n (b :: bs) || charsOccurIn n bs

/-- Python substring test `needle in hay` for strings. -/
def strOccurs (needle hay : String) : Bool :=
  charsOccurIn needle.data hay.data

/-- Python `"." in key` on a string key (written over the character
list so that it reduces in the kernel). -/
def strHasDot (s : String) : Bool := s.data.any fun c => c = '.'

/-- Helper for `splitDot`: split the remaining characters at each
dot, the current segment accumulated in reverse. -/
def splitDotAux (cur : List Char) : List Char → List String
  | [] => [String.mk cur.reverse]
  | c :: cs =>
    if c = '.' then String.mk cur.reverse :: splitDotAux [] cs
    else splitDotAux (c :: cur) cs

/-- Python `key.split(".")`: the segments between dots, with empty
segments kept and the empty string splitting to `[""]`. -/
def splitDot (s : String) : List String := splitDotAux [] s.data

/-- Python `needle in container`.  Lists test element equality,
strings test substrings (a non-string needle raises `TypeError`),
dictionaries test key membership (an unhashable needle raises);
integers are not containers, so `in` raises `TypeError` (`none`). -/
def pyContains (container needle : Value) : Option Bool :=
  match container with
  | .list l => some (l.any fun e => decide (e = needle))
  | .str s =>
    match needle with
    | .str n => some (strOccurs n s)
    | _ => none
  | .obj m =>
    match needle with
    | .str k => some (assocHas m k)
    | .int _ => some false
    | _ => none
  | .int _ => none

/-- Python subscript `v[k]` with a string key: dictionary lookup
(`none` doubles for `KeyError`); any other container raises
`TypeError` on a string index. -/
def pySubscr (v : Value) (k : String) : Option Value :=
  match v with
  | .obj m => assocGet m k
  | _ => none

/-- Python iteration over a value: lists yield elements, strings
yield one-character strings, dictionaries yield their keys; an
integer is not iterable (`none`). -/
def pyIter : Value → Option (List Value)
  | .list l => some l
  | .str s => some (s.data.map fun c => .str (String.mk [c]))
  | .obj m => some (m.map fun p => .str p.1)
  | .int _ => none

/-- Python `d.items()`: only a dictionary has it. -/
def pyItems : Value → Option (List (String × Value))
  | .obj m => some m
  | _ => none

/-- Lexicographic comparison of character lists by code point, the
order Python uses for strings. -/
def charsLt : List Char → List Char → Bool
  | [], [] => false
  | [], _ :: _ => true
  | _ :: _, [] => false
  | a :: as, b :: bs =>
    if a.toNat < b.toNat then true
    else if b.toNat < a.toNat then false
    else charsLt as bs

/-- Python `a < b` on two strings. -/
def strLt (a b : String) : Bool := charsLt a.data b.data

mutual
/-- Python `a < b`: defined between two integers, two strings, or two
lists (lexicographically); any other combination raises `TypeError`. -/
def pyLt : Value → Value → Option Bool
  | .int a, .int b => some (decide (a < b))
  | .str a, .str b => some (strLt a b)
  | .list a, .list b => pyLtList a b
  | _, _ => none

/-- Lexicographic list comparison used by Python `<` on lists. -/
def pyLtList : List Value → List Value → Option Bool
  | [], [] => some false
  | [], _ :: _ => some true
  | _ :: _, [] => some false
  | a :: as, b :: bs => if a = b then pyLtList as bs else pyLt a b
end

/-- Python `a > b`, which is `b < a` for the value shapes above. -/
def pyGt (a b : Value) : Option Bool := pyLt b a

/-- Lazy `any(f(x) for x in l)`: stops at the first `true`, raising
(`none`) only if an element evaluated before that raises. -/
def pyAny (f : Value → Option Bool) : List Value → Option Bool
  | [] => some false
  | x :: xs => do
    let b ← f x
    if b then pure true else pyAny f xs

/-- Python `x != y` on our values (structural, as for these types). -/
def valNe (x y : Value) : Bool := decide (x ≠ y)

/-- Whether a value can be a member of a Python `set` (hashable):
strings and integers are, lists and dictionaries are not. -/
def pyHashable : Value → Bool
  | .str _ => true
  | .int _ => true
  | _ => false

/-- Insert a value into an ascending list using Python `<`, raising
(`none`) when it meets an incomparable element, as `sorted` does. -/
def insertValueSorted (x : Value) : List Value → Option (List Value)
  | [] => some [x]
  | y :: ys => do
    let lt ← pyLt x y
    if lt then pure (x :: y :: ys)
    else do
      let r ← insertValueSorted x ys
      pure (y :: r)

/-- Python `sorted(set(l))`: drop duplicates, then sort ascending by
`<`; mixed incomparable element types raise `TypeError` (`none`). -/
def sortedSet (l : List Value) : Option (List Value) :=
  l.dedup.foldlM (fun acc x => insertValueSorted x acc) []

/-- The day-collection loop shared by both modules' `aggregate`:
for each stored body holding a `schedule_details` with a `days`
member, iterate that member; an unhashable element raises when added
to the Python `set` (`none`). -/
def collectDays : Store → Option (List Value)
  | [] => some []
  | (_, doc) :: rest =>
    match assocGet doc "schedule_details" with
    | none => collectDays rest
    | some sd => do
      let hasDays ← pyContains sd (.str "days")
      if hasDays then do
        let container ← pySubscr sd "days"
        let items ← pyIter container
        if items.all pyHashable then do
          let tl ← collectDays rest
          pure (items ++ tl)
        else none
      else collectDays rest

namespace DB

/-- One query-key step of `database.py`'s matcher (the body of the
`for key, value in query.items()` loop in `MockCollection.find`):
`some true` means the key passes, `some false` means the document is
rejected, `none` means a raised exception.  The three
`schedule_details.*` keys are special-cased exactly as in the source;
every other key is a plain equality test against the document body. -/
def matchKey (doc : Doc) (key : String) (value : Value) : Option Bool :=
  if key = "schedule_details.days" then do
    let c ← pyContains value (.str "$in")
    if c then do
      let daysToMatch ← pySubscr value "$in"
      match assocGet doc "schedule_details" with
      | none => pure false
      | some sd => do
        let hasDays ← pyContains sd (.str "days")
        if hasDays then do
          let items ← pyIter daysToMatch
          pyAny (fun day => do
            let container ← pySubscr sd "days"
            pyContains container day) items
        else pure false
    else pure true
  else if key = "schedule_details.start_time" then do
    let c ← pyContains value (.str "$gte")
    if c then do
      let minTime ← pySubscr value "$gte"
      match assocGet doc "schedule_details" with
      | none => pure false
      | some sd => do
        let hasStart ← pyContains sd (.str "start_time")
        if hasStart then do
          let st ← pySubscr sd "start_time"
          let lt ← pyLt st minTime
          pure (!lt)
        else pure false
    else pure true
  else if key = "schedule_details.end_time" then do
    let c ← pyContains value (.str "$lte")
    if c then do
      let maxTime ← pySubscr value "$lte"
      match assocGet doc "schedule_details" with
      | none => pure false
      | some sd => do
        let hasEnd ← pyContains sd (.str "end_time")
        if hasEnd then do
          let et ← pySubscr sd "end_time"
          let gt ← pyGt et maxTime
          pure (!gt)
        else pure false
    else pure true
  else
    match assocGet doc key with
    | none => pure false
    | some v => pure (!valNe v value)

/-- The full matcher loop of `database.py`'s `find`: every query key
must pass, stopping at the first failure (`break` in the source). -/
def matchQuery (doc : Doc) : List (String × Value) → Option Bool
  | [] => some true
  | (k, v) :: rest => do
    let m ← matchKey doc k v
    if m then matchQuery doc rest else pure false

/-- Embedding of `database.py` `MockCollection.find`: scan the store in order,
keep the matching documents, returning each as a copy of the body
with `_id` assigned. -/
def find : Store → List (String × Value) → Option (List Doc)
  | [], _ => some []
  | (id, doc) :: rest, q => do
    let m ← matchQuery doc q
    let tl ← find rest q
    pure (if m then assocSet doc "_id" id :: tl else tl)

/-- Embedding of `database.py` `MockCollection.find_one`: head of `find`, `None`
when nothing matches. -/
def find_one (s : Store) (q : List (String × Value)) : Option (Option Doc) :=
  (find s q).map List.head?

/-- Embedding of `database.py` `MockCollection.count_documents`. -/
def count_documents (s : Store) (q : List (String × Value)) : Option Nat :=
  (find s q).map List.length

/-- Embedding of `database.py` `MockCollection.insert_one`:
`doc.pop("_id")` raises `KeyError` (`none`) before the store is
touched when the identifier is missing; the store assignment
`self.data[doc_id] = doc` then raises `TypeError` when the popped
identifier is unhashable (a list or mapping), also before any
write; otherwise the remaining fields are stored under the popped
identifier. -/
def insert_one (s : Store) (doc : Doc) : Option (Value × Store) :=
  match assocGet doc "_id" with
  | none => none
  | some id =>
    if pyHashable id then some (id, assocSet s id (assocErase doc "_id"))
    else none

/-- The `$push` loop of `database.py`'s `update_one`, applied to the
matched body: a missing field is first set to `[]` and then appended
to; `.append` on a present non-list raises, keeping the pushes made
so far (the flag records success). -/
def applyPush (doc : Doc) : List (String × Value) → Doc × Bool
  | [] => (doc, true)
  | (f, v) :: rest =>
    match (assocGet doc f).getD (.list []) with
    | .list l => applyPush (assocSet doc f (.list (l ++ [v]))) rest
    | _ => (doc, false)

/-- The `$pull` loop of `database.py`'s `update_one`: a present
list field is rebuilt without every item equal to the value; absent
or non-list fields are skipped, so this loop never raises. -/
def applyPull (doc : Doc) : List (String × Value) → Doc
  | [] => doc
  | (f, v) :: rest =>
    match assocGet doc f with
    | some (.list l) => applyPull (assocSet doc f (.list (l.filter fun x => valNe x v))) rest
    | _ => applyPull doc rest

/-- Embedding of `database.py` `MockCollection.update_one`: find the first match,
then apply `$push` and `$pull` to the stored body in place.  The
result is the `modified_count` (`none` for a raised exception) and
the store, which keeps mutations made before a mid-update raise. -/
def update_one (s : Store) (q u : List (String × Value)) : Option Nat × Store :=
  match find s q with
  | none => (none, s)
  | some [] => (some 0, s)
  | some (r :: _) =>
    match assocGet r "_id" with
    | none => (none, s)
    | some docId =>
      match assocGet s docId with
      | none => (none, s)
      | some doc =>
        match assocGet u "$push" with
        | some pushVal =>
          match pyItems pushVal with
          | none => (none, s)
          | some items =>
            let (doc1, okPush) := applyPush doc items
            if okPush then
              match assocGet u "$pull" with
              | some pullVal =>
                match pyItems pullVal with
                | none => (none, assocSet s docId doc1)
                | some pitems => (some 1, assocSet s docId (applyPull doc1 pitems))
              | none => (some 1, assocSet s docId doc1)
            else (none, assocSet s docId doc1)
        | none =>
          match assocGet u "$pull" with
          | some pullVal =>
            match pyItems pullVal with
            | none => (none, s)
            | some pitems => (some 1, assocSet s docId (applyPull doc pitems))
          | none => (some 1, assocSet s docId doc)

/-- Embedding of `database.py` `MockCollection.aggregate`: recognized when the
pipeline has exactly three stages, the first containing an
`$unwind` key and the second a `$group` key (the unwound field name
is never inspected); it then returns the sorted distinct
`schedule_details.days` values as `{"_id": day}` documents.  Any
other shape returns `[]`. -/
def aggregate (s : Store) (pipeline : List Value) : Option (List Doc) :=
  match pipeline with
  | [p0, p1, _] => do
    let c0 ← pyContains p0 (.str "$unwind")
    if c0 then do
      let c1 ← pyContains p1 (.str "$group")
      if c1 then do
        let days ← collectDays s
        let sorted ← sortedSet days
        pure (sorted.map fun d => [("_id", d)])
      else pure []
    else pure []
  | _ => pure []

end DB

namespace Mem

/-- The dotted-path walk of `database_memory.py`'s `find` (the
`for k in keys` loop): starting from the whole result copy, follow
each component with a membership test then a subscript.  The outer
`Option` is a raised exception; the inner `none` means a component
was missing, which rejects the document (`matches = False` plus
`break`). -/
def walk : Value → List String → Option (Option Value)
  | cur, [] => some (some cur)
  | cur, k :: ks => do
    let c ← pyContains cur (.str k)
    if c then
      match pySubscr cur k with
      | none => none
      | some nxt => walk nxt ks
    else pure none

/-- The matcher loop of `database_memory.py`'s `find`, run against
the result copy `dc` (which already carries `_id`).  A key absent
from the top level of the copy rejects with `break`; a dotted key
then re-walks the copy by components.  The `$in`/`$gte`/`$lte` and
dotted-equality branches set `matches = False` without `break`, so
later keys are still evaluated (and can still raise); the top-level
equality branch does `break`. -/
def matchQuery (dc : Doc) : List (String × Value) → Option Bool
  | [] => some true
  | (key, value) :: rest =>
    match assocGet dc key with
    | none => some false
    | some topVal =>
      if strHasDot key then do
        let w ← walk (.obj dc) (splitDot key)
        match w with
        | none => pure false
        | some cur => do
          let verdict ←
            (match value with
             | .obj m =>
               match assocGet m "$in" with
               | some inOperand => do
                 let items ← pyIter inOperand
                 pyAny (fun item => pyContains cur item) items
               | none =>
                 match assocGet m "$gte" with
                 | some g => do
                   let lt ← pyLt cur g
                   pure (!lt)
                 | none =>
                   match assocGet m "$lte" with
                   | some l => do
                     let gt ← pyGt cur l
                     pure (!gt)
                   | none => pure (!valNe cur value)
             | _ => pure (!valNe cur value))
          let r ← matchQuery dc rest
          pure (verdict && r)
      else
        if valNe topVal value then pure false else matchQuery dc rest

/-- Embedding of `database_memory.py` `MockCollection.find`: deep-copy each body,
attach `_id`, and keep the copies that match. -/
def find : Store → List (String × Value) → Option (List Doc)
  | [], _ => some []
  | (id, doc) :: rest, q => do
    let dc := assocSet doc "_id" id
    let m ← matchQuery dc q
    let tl ← find rest q
    pure (if m then dc :: tl else tl)

/-- Embedding of `database_memory.py` `MockCollection.find_one`. -/
def find_one (s : Store) (q : List (String × Value)) : Option (Option Doc) :=
  (find s q).map List.head?

/-- Embedding of `database_memory.py` `MockCollection.count_documents`. -/
def count_documents (s : Store) (q : List (String × Value)) : Option Nat :=
  (find s q).map List.length

/-- Embedding of `database_memory.py` `MockCollection.insert_one`:
deep-copies, pops `_id` (raising `KeyError` when absent, before any
store write), then stores the remaining fields under the identifier
— the store assignment raising `TypeError`, with the store
untouched, when the identifier is unhashable (a list or mapping). -/
def insert_one (s : Store) (doc : Doc) : Option (Value × Store) :=
  match assocGet doc "_id" with
  | none => none
  | some id =>
    if pyHashable id then some (id, assocSet s id (assocErase doc "_id"))
    else none

/-- The `$push` loop of `database_memory.py`'s `update_one`: an
absent field is set to `[value]`; a present list field is appended
to; `.append` on a present non-list raises, keeping earlier pushes. -/
def applyPush (doc : Doc) : List (String × Value) → Doc × Bool
  | [] => (doc, true)
  | (f, v) :: rest =>
    match assocGet doc f with
    | none => applyPush (assocSet doc f (.list [v])) rest
    | some (.list l) => applyPush (assocSet doc f (.list (l ++ [v]))) rest
    | some _ => (doc, false)

/-- Remove the first occurrence of a value, as Python
`list.remove` does. -/
def removeFirst (v : Value) : List Value → List Value
  | [] => []
  | x :: xs => if x = v then xs else x :: removeFirst v xs

/-- The `$pull` loop of `database_memory.py`'s `update_one`: only a
present field containing the value is touched, and only its first
occurrence is removed; the membership test itself can raise on a
non-container field, and `.remove` on a non-list raises, keeping
earlier pulls. -/
def applyPull (doc : Doc) : List (String × Value) → Doc × Bool
  | [] => (doc, true)
  | (f, v) :: rest =>
    match assocGet doc f with
    | none => applyPull doc rest
    | some c =>
      match pyContains c v with
      | none => (doc, false)
      | some false => applyPull doc rest
      | some true =>
        match c with
        | .list l => applyPull (assocSet doc f (.list (removeFirst v l))) rest
        | _ => (doc, false)

/-- Embedding of `database_memory.py` `MockCollection.update_one`: locate the
first match with `find_one`, then apply `$push` and `$pull` to the
stored body; `modified_count` is 1 whenever a document was found.
A raised exception (`none` count) keeps the mutations made before
it. -/
def update_one (s : Store) (q u : List (String × Value)) : Option Nat × Store :=
  match find_one s q with
  | none => (none, s)
  | some none => (some 0, s)
  | some (some doc) =>
    match assocGet doc "_id" with
    | none => (none, s)
    | some docId =>
      match assocGet s docId with
      | none => (none, s)
      | some body =>
        match assocGet u "$push" with
        | some pushVal =>
          match pyItems pushVal with
          | none => (none, s)
          | some items =>
            let (body1, okPush) := applyPush body items
            if okPush then
              match assocGet u "$pull" with
              | some pullVal =>
                match pyItems pullVal with
                | none => (none, assocSet s docId body1)
                | some pitems =>
                  let (body2, okPull) := applyPull body1 pitems
                  ((if okPull then some 1 else none), assocSet s docId body2)
              | none => (some 1, assocSet s docId body1)
            else (none, assocSet s docId body1)
        | none =>
          match assocGet u "$pull" with
          | some pullVal =>
            match pyItems pullVal with
            | none => (none, s)
            | some pitems =>
              let (body2, okPull) := applyPull body pitems
              ((if okPull then some 1 else none), assocSet s docId body2)
          | none => (some 1, assocSet s docId body)

/-- Embedding of `database_memory.py` `MockCollection.aggregate`: recognized when
the pipeline has at least two stages and the first stage's
`.get("$unwind")` equals `"$schedule_details.days"` (the second
stage is never inspected); it then returns the sorted distinct
`schedule_details.days` values as `{"_id": day}` documents.  Any
other shape returns `[]`; a non-dictionary first stage raises. -/
def aggregate (s : Store) (pipeline : List Value) : Option (List Doc) :=
  match pipeline with
  | p0 :: _ :: _ => do
    let g ← pyItems p0
    if assocGet g "$unwind" = some (.str "$schedule_details.days") then do
      let days ← collectDays s
      let sorted ← sortedSet days
      pure (sorted.map fun d => [("_id", d)])
    else pure []
  | _ => pure []

end Mem

/-- Helper to build a `schedule_details` dictionary of the seed
catalog. -/
def mkSched (days : List String) (startT endT : String) : Value :=
  .obj [("days", .list (days.map Value.str)),
        ("start_time", .str startT),
        ("end_time", .str endT)]

/-- Helper to build one seed activity body (the field order of the
Python literals). -/
def mkActivity (descr sched : String) (sd : Value) (maxP : Int)
    (parts : List String) : Doc :=
  [("description", .str descr),
   ("schedule", .str sched),
   ("schedule_details", sd),
   ("max_participants", .int maxP),
   ("participants", .list (parts.map Value.str))]

/-- The `initial_activities` literal shared verbatim by both
modules: activity name paired with its body, in source order. -/
def initial_activities : List (String × Doc) :=
  [("Chess Club",
    mkActivity "Learn strategies and compete in chess tournaments"
      "Mondays and Fridays, 3:15 PM - 4:45 PM"
      (mkSched ["Monday", "Friday"] "15:15" "16:45") 12
      ["michael@mergington.edu", "daniel@mergington.edu"]),
   ("Programming Class",
    mkActivity "Learn programming fundamentals and build software projects"
      "Tuesdays and Thursdays, 7:00 AM - 8:00 AM"
      (mkSched ["Tuesday", "Thursday"] "07:00" "08:00") 20
      ["emma@mergington.edu", "sophia@mergington.edu"]),
   ("Morning Fitness",
    mkActivity "Early morning physical training and exercises"
      "Mondays, Wednesdays, Fridays, 6:30 AM - 7:45 AM"
      (mkSched ["Monday", "Wednesday", "Friday"] "06:30" "07:45") 30
      ["john@mergington.edu", "olivia@mergington.edu"]),
   ("Soccer Team",
    mkActivity "Join the school soccer team and compete in matches"
      "Tuesdays and Thursdays, 3:30 PM - 5:30 PM"
      (mkSched ["Tuesday", "Thursday"] "15:30" "17:30") 22
      ["liam@mergington.edu", "noah@mergington.edu"]),
   ("Basketball Team",
    mkActivity "Practice and compete in basketball tournaments"
      "Wednesdays and Fridays, 3:15 PM - 5:00 PM"
      (mkSched ["Wednesday", "Friday"] "15:15" "17:00") 15
      ["ava@mergington.edu", "mia@mergington.edu"]),
   ("Art Club",
    mkActivity "Explore various art techniques and create masterpieces"
      "Thursdays, 3:15 PM - 5:00 PM"
      (mkSched ["Thursday"] "15:15" "17:00") 15
      ["amelia@mergington.edu", "harper@mergington.edu"]),
   ("Drama Club",
    mkActivity "Act, direct, and produce plays and performances"
      "Mondays and Wednesdays, 3:30 PM - 5:30 PM"
      (mkSched ["Monday", "Wednesday"] "15:30" "17:30") 20
      ["ella@mergington.edu", "scarlett@mergington.edu"]),
   ("Math Club",
    mkActivity "Solve challenging problems and prepare for math competitions"
      "Tuesdays, 7:15 AM - 8:00 AM"
      (mkSched ["Tuesday"] "07:15" "08:00") 10
      ["james@mergington.edu", "benjamin@mergington.edu"]),
   ("Debate Team",
    mkActivity "Develop public speaking and argumentation skills"
      "Fridays, 3:30 PM - 5:30 PM"
      (mkSched ["Friday"] "15:30" "17:30") 12
      ["charlotte@mergington.edu", "amelia@mergington.edu"]),
   ("Weekend Robotics Workshop",
    mkActivity "Build and program robots in our state-of-the-art workshop"
      "Saturdays, 10:00 AM - 2:00 PM"
      (mkSched ["Saturday"] "10:00" "14:00") 15
      ["ethan@mergington.edu", "oliver@mergington.edu"]),
   ("Science Olympiad",
    mkActivity "Weekend science competition preparation for regional and state events"
      "Saturdays, 1:00 PM - 4:00 PM"
      (mkSched ["Saturday"] "13:00" "16:00") 18
      ["isabella@mergington.edu", "lucas@mergington.edu"]),
   ("Sunday Chess Tournament",
    mkActivity "Weekly tournament for serious chess players with rankings"
      "Sundays, 2:00 PM - 5:00 PM"
      (mkSched ["Sunday"] "14:00" "17:00") 16
      ["william@mergington.edu", "jacob@mergington.edu"]),
   ("Manga Maniacs",
    mkActivity "Dive into the incredible worlds of Japanese manga! From epic shonen adventures to heartwarming slice-of-life stories, discover amazing characters, stunning artwork, and mind-blowing plot twists. Share your favorite series, debate the best anime adaptations, and find your next obsession with fellow otaku!"
      "Tuesdays, 7:00 PM - 8:30 PM"
      (mkSched ["Tuesday"] "19:00" "20:30") 15
      [])]

/-- The `initial_teachers` literal shared by both modules.  The
passwords are hashed at import time by `hash_password` (the argon2
library, outside this repository), modelled as an arbitrary hashing
function passed in as a parameter. -/
def initial_teachers (hash : String → String) : List Doc :=
  [[("username", .str "mrodriguez"),
    ("display_name", .str "Ms. Rodriguez"),
    ("password", .str (hash "art123")),
    ("role", .str "teacher")],
   [("username", .str "mchen"),
    ("display_name", .str "Mr. Chen"),
    ("password", .str (hash "chess456")),
    ("role", .str "teacher")],
   [("username", .str "principal"),
    ("display_name", .str "Principal Martinez"),
    ("password", .str (hash "admin789")),
    ("role", .str "admin")]]

/-- Python truthiness of a `find_one` result: `None` and the empty
dictionary are falsy, a non-empty document is truthy. -/
def pyFalsyDoc : Option Doc → Bool
  | none => true
  | some d => d.isEmpty

/-- Embedding of `database.py` `init_database`: seed all activities when the
activities collection is empty, otherwise insert only the seed
activities that `find_one({"_id": name})` fails to locate; then seed
the teacher accounts only when the teacher collection is empty.  The
two stores are threaded explicitly; `hash` abstracts argon2. -/
def DB.init_database (hash : String → String) (acts teachers : Store) :
    Option (Store × Store) := do
  let c ← DB.count_documents acts []
  let acts2 ←
    (if c = 0 then
      initial_activities.foldlM (fun st p =>
        (DB.insert_one st (("_id", Value.str p.1) :: p.2)).map Prod.snd) acts
    else
      initial_activities.foldlM (fun st p => do
        let f ← DB.find_one st [("_id", Value.str p.1)]
        if pyFalsyDoc f then
          (DB.insert_one st (("_id", Value.str p.1) :: p.2)).map Prod.snd
        else pure st) acts)
  let tc ← DB.count_documents teachers []
  let teachers2 ←
    (if tc = 0 then
      (initial_teachers hash).foldlM (fun st t => do
        let u ← assocGet t "username"
        (DB.insert_one st (("_id", u) :: t)).map Prod.snd) teachers
    else pure teachers)
  pure (acts2, teachers2)

/-- Embedding of `database_memory.py` `init_database`: the same routine over the
other module's collection operations. -/
def Mem.init_database (hash : String → String) (acts teachers : Store) :
    Option (Store × Store) := do
  let c ← Mem.count_documents acts []
  let acts2 ←
    (if c = 0 then
      initial_activities.foldlM (fun st p =>
        (Mem.insert_one st (("_id", Value.str p.1) :: p.2)).map Prod.snd) acts
    else
      initial_activities.foldlM (fun st p => do
        let f ← Mem.find_one st [("_id", Value.str p.1)]
        if pyFalsyDoc f then
          (Mem.insert_one st (("_id", Value.str p.1) :: p.2)).map Prod.snd
        else pure st) acts)
  let tc ← Mem.count_documents teachers []
  let teachers2 ←
    (if tc = 0 then
      (initial_teachers hash).foldlM (fun st t => do
        let u ← assocGet t "username"
        (Mem.insert_one st (("_id", u) :: t)).map Prod.snd) teachers
    else pure teachers)
  pure (acts2, teachers2)

/-- The store holding exactly the seed activity catalog, keyed by
activity name, as produced by seeding an empty collection. -/
def seedActivities : Store :=
  initial_activities.map fun p => (Value.str p.1, p.2)

/-- One call of the `MockCollection` interface, with its arguments. -/
inductive Op : Type where
  | find (q : List (String × Value))
  | findOne (q : List (String × Value))
  | countDocs (q : List (String × Value))
  | insertOne (d : Doc)
  | updateOne (q u : List (String × Value))
  | aggregate (p : List Value)

/-- The value returned by one call: `database.py` acknowledges an
insert with an object carrying `inserted_id`, while
`database_memory.py` returns `True` (`ok`); `error` is a raised
exception. -/
inductive OpResult : Type where
  | docs (l : List Doc)
  | docOpt (d : Option Doc)
  | num (n : Nat)
  | insertedId (v : Value)
  | ok
  | modified (n : Nat)
  | error
deriving Repr

/-- Run one call against the `database.py` collection: the result and
the store afterwards.  A raised exception leaves the store as the
operation left it (reads and inserts never mutate before raising;
`update_one` keeps its partial mutations). -/
def DB.step : Op → Store → OpResult × Store
  | .find q, s => ((match DB.find s q with | some r => .docs r | none => .error), s)
  | .findOne q, s => ((match DB.find_one s q with | some r => .docOpt r | none => .error), s)
  | .countDocs q, s => ((match DB.count_documents s q with | some n => .num n | none => .error), s)
  | .insertOne d, s =>
    (match DB.insert_one s d with
     | some (id, s2) => (.insertedId id, s2)
     | none => (.error, s))
  | .updateOne q u, s =>
    (match DB.update_one s q u with
     | (some n, s2) => (.modified n, s2)
     | (none, s2) => (.error, s2))
  | .aggregate p, s => ((match DB.aggregate s p with | some r => .docs r | none => .error), s)

/-- Run one call against the `database_memory.py` collection. -/
def Mem.step : Op → Store → OpResult × Store
  | .find q, s => ((match Mem.find s q with | some r => .docs r | none => .error), s)
  | .findOne q, s => ((match Mem.find_one s q with | some r => .docOpt r | none => .error), s)
  | .countDocs q, s => ((match Mem.count_documents s q with | some n => .num n | none => .error), s)
  | .insertOne d, s =>
    (match Mem.insert_one s d with
     | some (_, s2) => (.ok, s2)
     | none => (.error, s))
  | .updateOne q u, s =>
    (match Mem.update_one s q u with
     | (some n, s2) => (.modified n, s2)
     | (none, s2) => (.error, s2))
  | .aggregate p, s => ((match Mem.aggregate s p with | some r => .docs r | none => .error), s)

/-- Run a sequence of calls against `database.py`, collecting the
results and the final store. -/
def DB.run : List Op → Store → List OpResult × Store
  | [], s => ([], s)
  | op :: ops, s =>
    let (r, s2) := DB.step op s
    let (rs, s3) := DB.run ops s2
    (r :: rs, s3)

/-- Run a sequence of calls against `database_memory.py`. -/
def Mem.run : List Op → Store → List OpResult × Store
  | [], s => ([], s)
  | op :: ops, s =>
    let (r, s2) := Mem.step op s
    let (rs, s3) := Mem.run ops s2
    (r :: rs, s3)

/-- A query key on which the two modules' matchers coincide: no
dotted path (which only `database_memory.py` walks and only
`database.py` special-cases) and not the identifier key (which only
`database_memory.py` attaches before matching). -/
def plainKey (k : String) : Bool := !strHasDot k && !(k = "_id")

/-- A query all of whose keys are plain. -/
def plainQuery (q : List (String × Value)) : Bool := q.all fun p => plainKey p.1

/-- The operation fragment on which the two modules are compared in
the amended equivalence: reads with plain queries, and inserts. -/
def plainOp : Op → Bool
  | .find q => plainQuery q
  | .findOne q => plainQuery q
  | .countDocs q => plainQuery q
  | .insertOne _ => true
  | .updateOne _ _ => false
  | .aggregate _ => false

/-- Result agreement between the modules: equal, except that an
insert is acknowledged with the inserted identifier by `database.py`
and with `True` by `database_memory.py`. -/
def resultAgrees (r1 r2 : OpResult) : Prop :=
  r1 = r2 ∨ ∃ id, r1 = .insertedId id ∧ r2 = .ok

/-- A well-formed document body: top-level field names carry no dot,
and a `schedule_details` field, when present, is a dictionary whose
`days` is a list and whose `start_time` and `end_time` are strings
(the shape of every document the application stores). -/
def WFDoc (d : Doc) : Bool :=
  (d.all fun p => !strHasDot p.1) &&
  (match assocGet d "schedule_details" with
   | none => true
   | some (.obj sd) =>
     (match assocGet sd "days" with
      | none => true | some (.list _) => true | some _ => false) &&
     (match assocGet sd "start_time" with
      | none => true | some (.str _) => true | some _ => false) &&
     (match assocGet sd "end_time" with
      | none => true | some (.str _) => true | some _ => false)
   | some _ => false)

/-- A well-formed store: every stored body is well-formed. -/
def WFStore (s : Store) : Bool := s.all fun p => WFDoc p.2

/-- A query entry built from the supported operators: a plain
equality on a top-level key, or an operator dictionary on a dotted
path whose `$in` operand (if any) is a list and whose `$gte`/`$lte`
operands (if any) are strings. -/
def supportedEntry (k : String) (v : Value) : Bool :=
  if strHasDot k then
    match v with
    | .obj m =>
      (match assocGet m "$in" with
       | none => true | some (.list _) => true | some _ => false) &&
      (match assocGet m "$gte" with
       | none => true | some (.str _) => true | some _ => false) &&
      (match assocGet m "$lte" with
       | none => true | some (.str _) => true | some _ => false)
    | _ => false
  else true

/-- A query all of whose entries are supported. -/
def supportedQuery (q : List (String × Value)) : Bool :=
  q.all fun p => supportedEntry p.1 p.2

/-- The identifier-uniqueness half of the collection invariant. -/
def uniqueIds (s : Store) : Bool := decide (s.map Prod.fst).Nodup

/-- The collection invariant of the data model: stored identifiers
are unique, and no stored body contains an `_id` field of its own. -/
def storeInv (s : Store) : Bool :=
  decide (s.map Prod.fst).Nodup && s.all fun p => !assocHas p.2 "_id"

/-- An operation that cannot smuggle an `_id` field into a stored
body: inserted documents are honest dictionaries (no duplicate
field), and `$push` field maps do not name `_id`. -/
def opKeepsInv : Op → Bool
  | .insertOne d => decide (d.map Prod.fst).Nodup
  | .updateOne _ u =>
    (match assocGet u "$push" with
     | some (.obj m) => m.all fun p => !(p.1 = "_id")
     | _ => true)
  | _ => true

/-- The read-only calls of the interface. -/
def readOnlyOp : Op → Bool
  | .find _ => true
  | .findOne _ => true
  | .countDocs _ => true
  | _ => false

/-- The distinct weekday names of the seed catalog in ascending
order, as the `{"_id": day}` documents the aggregation returns. -/
def weekdayDocsSorted : List Doc :=
  [[("_id", .str "Friday")], [("_id", .str "Monday")],
   [("_id", .str "Saturday")], [("_id", .str "Sunday")],
   [("_id", .str "Thursday")], [("_id", .str "Tuesday")],
   [("_id", .str "Wednesday")]]

/-- The Chess Club participants list with one signup added after
seeding, used to exercise re-initialization on a modified store. -/
def chessModifiedParts : Value :=
  .list [.str "michael@mergington.edu", .str "daniel@mergington.edu",
         .str "newstudent@mergington.edu"]

/-- The seed store after one extra Chess Club signup. -/
def modifiedActivities : Store :=
  seedActivities.map fun p =>
    if p.1 = Value.str "Chess Club" then
      (p.1, assocSet p.2 "participants" chessModifiedParts)
    else p

/-- The seed Chess Club participants (what re-initialization of
`database.py` resets the modified list back to). -/
def chessSeedParts : Value :=
  .list [.str "michael@mergington.edu", .str "daniel@mergington.edu"]

/-- C1: the claim fails on `database.py` and is met by
`database_memory.py`.  Inserting a document and then querying by its
exact identifier, `database.py`'s `find_one` returns `None` — its
matcher looks the key `_id` up in the stored body, which never holds
it — while `database_memory.py` returns the document with its fields
unchanged plus the attached identifier. -/
theorem c1_insert_then_find_one_by_id :
    (DB.insert_one [] [("_id", .str "Chess Club"), ("x", .int 1)]).map
        (fun r => DB.find_one r.2 [("_id", Value.str "Chess Club")])
      = some (some none)
  ∧ (Mem.insert_one [] [("_id", .str "Chess Club"), ("x", .int 1)]).map
        (fun r => Mem.find_one r.2 [("_id", Value.str "Chess Club")])
      = some (some (some [("x", .int 1), ("_id", .str "Chess Club")])) :=
  ⟨rfl, rfl⟩

/-- C2 counterexample: the two modules are not behaviorally
equivalent.  From the same one-document store, a `find` by exact
identifier returns nothing in `database.py` and the document in
`database_memory.py`. -/
theorem c2_find_by_id_differs :
    DB.find [(.str "A", [("x", .int 1)])] [("_id", Value.str "A")]
      ≠ Mem.find [(.str "A", [("x", .int 1)])] [("_id", Value.str "A")] := by
  decide

/-- C3: the claim holds for `database.py` — the Monday `$in` query
over the seed catalog returns exactly Chess Club, Morning Fitness
and Drama Club — but fails on `database_memory.py`, whose `find`
first demands the literal dotted key as a top-level document field
and therefore returns no documents at all for this query. -/
theorem c3_monday_in_query :
    (DB.find seedActivities
        [("schedule_details.days", .obj [("$in", .list [.str "Monday"])])]).map
        (fun l => l.map fun d => assocGet d "_id")
      = some [some (.str "Chess Club"), some (.str "Morning Fitness"),
              some (.str "Drama Club")]
  ∧ Mem.find seedActivities
        [("schedule_details.days", .obj [("$in", .list [.str "Monday"])])]
      = some [] :=
  ⟨rfl, rfl⟩

/-- C4 counterexample: on `database.py`, pushing a value already
present in the list and then pulling it does not restore the prior
contents — `$pull` removes every occurrence, so a one-element list
ends empty instead of back at one element. -/
theorem c4_push_pull_not_inverse :
    ((DB.update_one
        ((DB.update_one [(.str "A", [("participants", Value.list [.str "p"])])] []
            [("$push", .obj [("participants", .str "p")])]).2) []
        [("$pull", .obj [("participants", .str "p")])]).2
      |> fun s2 => (assocGet s2 (Value.str "A")).map (assocGet · "participants"))
        = some (some (.list []))
  ∧ some (some (Value.list [])) ≠ some (some (Value.list [Value.str "p"])) := by
  exact ⟨rfl, by decide⟩

/-- C5: the claim fails on `database.py`.  Starting from the seed
store with one extra Chess Club signup (and a non-empty teacher
store), re-running `database.py`'s `init_database` re-inserts every
seed activity — its `find_one({"_id": name})` presence test never
matches — resetting the modified participants list to the seed pair,
while `database_memory.py`'s run leaves the modified list intact;
both leave the collection sizes unchanged at 13 and 1. -/
theorem c5_reinit_on_modified_store :
    (DB.init_database (fun s => s) modifiedActivities
        [(.str "t", [("role", .str "teacher")])]).map
        (fun p => (assocGet p.1 (Value.str "Chess Club")).map (assocGet · "participants"))
      = some (some (some chessSeedParts))
  ∧ (Mem.init_database (fun s => s) modifiedActivities
        [(.str "t", [("role", .str "teacher")])]).map
        (fun p => (assocGet p.1 (Value.str "Chess Club")).map (assocGet · "participants"))
      = some (some (some chessModifiedParts))
  ∧ (DB.init_database (fun s => s) modifiedActivities
        [(.str "t", [("role", .str "teacher")])]).map
        (fun p => (p.1.length, p.2.length))
      = some (13, 1)
  ∧ (Mem.init_database (fun s => s) modifiedActivities
        [(.str "t", [("role", .str "teacher")])]).map
        (fun p => (p.1.length, p.2.length))
      = some (13, 1) :=
  ⟨rfl, rfl, rfl, rfl⟩

/-- C6 counterexample: `database.py`'s `aggregate` never consults
the unwound field name.  A three-stage pipeline unwinding
`$participants` over a store whose document has participants
`["p"]` and days `["Monday"]` returns the distinct days — not the
distinct values of the unwound field. -/
theorem c6_unwound_field_ignored :
    DB.aggregate
        [(.str "A", [("participants", .list [.str "p"]),
                     ("schedule_details", .obj [("days", .list [.str "Monday"])])])]
        [.obj [("$unwind", .str "$participants")], .obj [("$group", .obj [])],
         .obj [("$sort", .int 1)]]
      = some [[("_id", .str "Monday")]]
  ∧ some [[("_id", Value.str "Monday")]] ≠ some [[("_id", Value.str "p")]] := by
  exact ⟨rfl, by decide⟩

/-- C7 counterexample: `find` can fail on a supported query.  When a
stored `schedule_details.days` is the integer `5`, the Monday `$in`
query makes `database.py` evaluate `"Monday" in 5`, which raises
`TypeError`. -/
theorem c7_find_can_raise :
    supportedQuery [("schedule_details.days", .obj [("$in", .list [.str "Monday"])])] = true
  ∧ DB.find [(.str "A", [("schedule_details", .obj [("days", .int 5)])])]
        [("schedule_details.days", .obj [("$in", .list [.str "Monday"])])]
      = none := by
  decide

/-- C9 counterexample: `update_one` with a `$push` naming the field
`_id` stores an `_id` field inside the document body, breaking the
invariant that bodies never contain their own identifier. -/
theorem c9_push_can_insert_internal_id :
    storeInv [(.str "A", [("x", .int 1)])] = true
  ∧ (DB.update_one [(.str "A", [("x", .int 1)])] []
        [("$push", .obj [("_id", .str "evil")])]).2
      = [(.str "A", [("x", .int 1), ("_id", .list [.str "evil"])])]
  ∧ storeInv [(.str "A", [("x", .int 1), ("_id", Value.list [.str "evil"])])] = false := by
  decide

theorem assocGet_set_self {α β : Type} [DecidableEq α] (m : List (α × β)) (k : α) (v : β) :
    assocGet (assocSet m k v) k = some v := by
  induction m with
  | nil => simp [assocSet, assocGet]
  | cons p rest ih =>
    obtain ⟨k2, w⟩ := p
    by_cases h : k2 = k <;> simp [assocSet, assocGet, h, ih]

theorem assocGet_set_ne {α β : Type} [DecidableEq α] (m : List (α × β)) (k k2 : α) (v : β)
    (h : k2 ≠ k) : assocGet (assocSet m k v) k2 = assocGet m k2 := by
  induction m with
  | nil => simp [assocSet, assocGet, Ne.symm h]
  | cons p rest ih =>
    obtain ⟨k3, w⟩ := p
    by_cases h3 : k3 = k
    · subst h3
      simp [assocSet, assocGet, Ne.symm h]
    · simp [assocSet, assocGet, h3, ih]

theorem assocSet_set_same {α β : Type} [DecidableEq α] (m : List (α × β)) (k : α) (v w : β) :
    assocSet (assocSet m k v) k w = assocSet m k w := by
  induction m with
  | nil => simp [assocSet]
  | cons p rest ih =>
    obtain ⟨k2, u⟩ := p
    by_cases h : k2 = k <;> simp [assocSet, h, ih]

theorem assocSet_get_self {α β : Type} [DecidableEq α] (m : List (α × β)) (k : α) (v : β)
    (h : assocGet m k = some v) : assocSet m k v = m := by
  induction m with
  | nil => simp [assocGet] at h
  | cons p rest ih =>
    obtain ⟨k2, w⟩ := p
    by_cases h2 : k2 = k
    · subst h2
      simp [assocGet] at h
      simp [assocSet, h]
    · simp [assocGet, h2] at h
      simp [assocSet, h2, ih h]

theorem mem_assocSet {α β : Type} [DecidableEq α] {m : List (α × β)} {k : α} {v : β}
    {p : α × β} (h : p ∈ assocSet m k v) : p = (k, v) ∨ p ∈ m := by
  induction m with
  | nil => simpa [assocSet] using h
  | cons q rest ih =>
    obtain ⟨k2, w⟩ := q
    by_cases h2 : k2 = k
    · subst h2
      simp [assocSet] at h
      rcases h with h | h
      · exact Or.inl (by simp [h])
      · exact Or.inr (by simp [h])
    · simp [assocSet, h2] at h
      rcases h with h | h
      · exact Or.inr (by simp [h])
      · rcases ih h with h | h
        · exact Or.inl h
        · exact Or.inr (by simp [h])

theorem keys_assocSet {α β : Type} [DecidableEq α] (m : List (α × β)) (k : α) (v : β) :
    (assocSet m k v).map Prod.fst =
      if assocHas m k then m.map Prod.fst else m.map Prod.fst ++ [k] := by
  induction m with
  | nil => simp [assocSet, assocHas, assocGet]
  | cons p rest ih =>
    obtain ⟨k2, w⟩ := p
    by_cases h : k2 = k
    · subst h
      simp [assocSet, assocHas, assocGet]
    · have hh : assocHas ((k2, w) :: rest) k = assocHas rest k := by
        simp [assocHas, assocGet, h]
      simp only [assocSet, if_neg h, List.map_cons, hh, ih]
      by_cases h2 : assocHas rest k <;> simp [h2]

theorem assocGet_eq_none_of_not_mem_keys {α β : Type} [DecidableEq α]
    (m : List (α × β)) (k : α) (h : k ∉ m.map Prod.fst) : assocGet m k = none := by
  induction m with
  | nil => rfl
  | cons p rest ih =>
    obtain ⟨k2, w⟩ := p
    simp only [List.map_cons, List.mem_cons] at h
    push_neg at h
    simp only [assocGet, if_neg (fun hh : k2 = k => h.1 hh.symm)]
    exact ih h.2

theorem assocGet_erase_self {α β : Type} [DecidableEq α] (m : List (α × β)) (k : α)
    (h : (m.map Prod.fst).Nodup) : assocGet (assocErase m k) k = none := by
  induction m with
  | nil => rfl
  | cons p rest ih =>
    obtain ⟨k2, w⟩ := p
    simp only [List.map_cons, List.nodup_cons] at h
    by_cases h2 : k2 = k
    · subst h2
      simp only [assocErase, if_pos rfl]
      exact assocGet_eq_none_of_not_mem_keys rest k2 h.1
    · simp only [assocErase, if_neg h2, assocGet, if_neg h2]
      exact ih h.2

theorem assocGet_eq_none_of_dotfree (m : List (String × Value)) (k : String)
    (hall : (m.all fun p => !strHasDot p.1) = true) (hk : strHasDot k = true) :
    assocGet m k = none := by
  induction m with
  | nil => rfl
  | cons p rest ih =>
    obtain ⟨k2, w⟩ := p
    simp only [List.all_cons, Bool.and_eq_true, Bool.not_eq_true'] at hall
    by_cases h2 : k2 = k
    · subst h2
      rw [hall.1] at hk
      cases hk
    · simp only [assocGet, if_neg h2]
      exact ih hall.2

theorem dbFind_empty_query (s : Store) :
    DB.find s [] = some (s.map fun p => assocSet p.2 "_id" p.1) := by
  induction s with
  | nil => rfl
  | cons p rest ih =>
    obtain ⟨id, doc⟩ := p
    simp [DB.find, DB.matchQuery, ih]

theorem memFind_empty_query (s : Store) :
    Mem.find s [] = some (s.map fun p => assocSet p.2 "_id" p.1) := by
  induction s with
  | nil => rfl
  | cons p rest ih =>
    obtain ⟨id, doc⟩ := p
    simp [Mem.find, Mem.matchQuery, ih]

theorem valNe_self (v : Value) : valNe v v = false := by
  simp [valNe]

theorem filter_valNe_append_self (l : List Value) (v : Value)
    (hv : (l.all fun x => valNe x v) = true) :
    (l ++ [v]).filter (fun x => valNe x v) = l := by
  rw [List.filter_append]
  have h1 : List.filter (fun x => valNe x v) [v] = [] := by
    simp [List.filter, valNe_self]
  have h2 : List.filter (fun x => valNe x v) l = l :=
    List.filter_eq_self.mpr (by
      intro a ha
      exact (List.all_eq_true.mp hv) a ha)
  rw [h1, h2, List.append_nil]

theorem removeFirst_append_self (l : List Value) (v : Value)
    (hv : (l.all fun x => valNe x v) = true) :
    Mem.removeFirst v (l ++ [v]) = l := by
  induction l with
  | nil => simp [Mem.removeFirst]
  | cons x xs ih =>
    simp only [List.all_cons, Bool.and_eq_true] at hv
    have hx : ¬(x = v) := by
      intro hh
      rw [hh, valNe_self] at hv
      cases hv.1
    simp only [List.cons_append, Mem.removeFirst, if_neg hx]
    rw [show xs.append [v] = xs ++ [v] from rfl, ih hv.2]

/-- C8 counterexample: `insert_one` can raise with the identifier
present.  A document whose `_id` is the list `[1]` pops it and then
raises `TypeError` at the store assignment (lists are unhashable),
so the error is raised although the document does not lack `_id`,
in both modules; the store stays empty. -/
theorem c8_unhashable_id_still_raises :
    DB.step (.insertOne [("_id", .list [.int 1]), ("x", .int 2)]) [] = (.error, [])
  ∧ Mem.step (.insertOne [("_id", .list [.int 1]), ("x", .int 2)]) [] = (.error, [])
  ∧ assocGet [("_id", Value.list [.int 1]), ("x", Value.int 2)] "_id"
      = some (.list [.int 1]) :=
  ⟨rfl, rfl, rfl⟩

/-- C8 amended: `insert_one` raises exactly when the document lacks
`_id` or its identifier value is unhashable (a list or mapping);
with a hashable identifier present it stores the remaining fields
keyed by it; in both failure cases (`pop` raising before any write,
or the store assignment rejecting the key) the store is untouched —
in both modules. -/
theorem c8_insert_error_iff_missing_or_unhashable_id (s : Store) (d : Doc) :
    (assocGet d "_id" = none →
       DB.step (.insertOne d) s = (.error, s)
     ∧ Mem.step (.insertOne d) s = (.error, s))
  ∧ (∀ id, assocGet d "_id" = some id → pyHashable id = false →
       DB.step (.insertOne d) s = (.error, s)
     ∧ Mem.step (.insertOne d) s = (.error, s))
  ∧ (∀ id, assocGet d "_id" = some id → pyHashable id = true →
       DB.step (.insertOne d) s = (.insertedId id, assocSet s id (assocErase d "_id"))
     ∧ Mem.step (.insertOne d) s = (.ok, assocSet s id (assocErase d "_id"))) := by
  refine ⟨?_, ?_, ?_⟩
  · intro h
    constructor <;> simp [DB.step, Mem.step, DB.insert_one, Mem.insert_one, h]
  · intro id h hh
    constructor <;> simp [DB.step, Mem.step, DB.insert_one, Mem.insert_one, h, hh]
  · intro id h hh
    constructor <;> simp [DB.step, Mem.step, DB.insert_one, Mem.insert_one, h, hh]

/-- Witness for C8 at concrete inputs: a document without `_id`
errors, one with an unhashable list `_id` errors, and one with a
string `_id` is stored under it, the store untouched on both
failures. -/
theorem c8_insert_error_iff_missing_or_unhashable_id_witness :
    (DB.step (.insertOne [("x", .int 1)]) [] = (.error, [])
     ∧ Mem.step (.insertOne [("x", .int 1)]) [] = (.error, []))
  ∧ (DB.step (.insertOne [("_id", .list [.int 1]), ("x", .int 2)]) [] = (.error, [])
     ∧ Mem.step (.insertOne [("_id", .list [.int 1]), ("x", .int 2)]) [] = (.error, []))
  ∧ (DB.step (.insertOne [("_id", .str "A"), ("x", .int 1)]) []
       = (.insertedId (.str "A"),
          assocSet [] (Value.str "A")
            (assocErase [("_id", Value.str "A"), ("x", Value.int 1)] "_id"))
     ∧ Mem.step (.insertOne [("_id", .str "A"), ("x", .int 1)]) []
       = (.ok,
          assocSet [] (Value.str "A")
            (assocErase [("_id", Value.str "A"), ("x", Value.int 1)] "_id"))) :=
  ⟨(c8_insert_error_iff_missing_or_unhashable_id [] [("x", .int 1)]).1 rfl,
   (c8_insert_error_iff_missing_or_unhashable_id []
      [("_id", .list [.int 1]), ("x", .int 2)]).2.1 (.list [.int 1]) rfl rfl,
   (c8_insert_error_iff_missing_or_unhashable_id []
      [("_id", .str "A"), ("x", .int 1)]).2.2 (.str "A") rfl rfl⟩

/-- C10: any sequence of the read operations `find`, `find_one` and
`count_documents` leaves the store of either module exactly as it
was. -/
theorem c10_reads_leave_store : ∀ (ops : List Op) (s : Store),
    ops.all readOnlyOp = true → (DB.run ops s).2 = s ∧ (Mem.run ops s).2 = s := by
  intro ops
  induction ops with
  | nil => exact fun s _ => ⟨rfl, rfl⟩
  | cons op rest ih =>
    intro s h
    simp only [List.all_cons, Bool.and_eq_true] at h
    obtain ⟨h1, h2⟩ := h
    have hd : (DB.step op s).2 = s := by
      cases op <;> first | rfl | simp [readOnlyOp] at h1
    have hm : (Mem.step op s).2 = s := by
      cases op <;> first | rfl | simp [readOnlyOp] at h1
    constructor
    · have hrun : (DB.run (op :: rest) s).2 = (DB.run rest (DB.step op s).2).2 := by
        rcases hds : DB.step op s with ⟨r, s2⟩
        simp [DB.run, hds]
      rw [hrun, hd]
      exact (ih s h2).1
    · have hrun : (Mem.run (op :: rest) s).2 = (Mem.run rest (Mem.step op s).2).2 := by
        rcases hds : Mem.step op s with ⟨r, s2⟩
        simp [Mem.run, hds]
      rw [hrun, hm]
      exact (ih s h2).2

/-- Witness for C10 at a concrete run: two reads over a one-document
store leave it unchanged in both modules. -/
theorem c10_reads_leave_store_witness :
    (DB.run [.find [], .countDocs [("x", .int 1)]] [(.str "A", [("x", .int 1)])]).2
      = [(.str "A", [("x", .int 1)])]
  ∧ (Mem.run [.find [], .countDocs [("x", .int 1)]] [(.str "A", [("x", .int 1)])]).2
      = [(.str "A", [("x", .int 1)])] :=
  c10_reads_leave_store [.find [], .countDocs [("x", .int 1)]]
    [(.str "A", [("x", .int 1)])] (by decide)

/-- C4 amended: provided the pushed value does not already occur in
the list field, `$push` of the value followed by `$pull` of the same
value on the first matching document returns the field — indeed the
whole store — to its contents before the push, in both modules.
(The counterexample shows this fails when the value already occurs:
`database.py` removes every occurrence, `database_memory.py` only
the first.) -/
theorem c4_push_pull_restores_when_absent (id : Value) (doc : Doc) (tl : Store)
    (f : String) (v : Value) (l : List Value)
    (hf : assocGet doc f = some (.list l))
    (hv : (l.all fun x => valNe x v) = true) :
    (DB.update_one ((id, doc) :: tl) [] [("$push", .obj [(f, v)])]
       = (some 1, (id, assocSet doc f (.list (l ++ [v]))) :: tl))
  ∧ (DB.update_one ((id, assocSet doc f (.list (l ++ [v]))) :: tl) []
       [("$pull", .obj [(f, v)])] = (some 1, (id, doc) :: tl))
  ∧ (Mem.update_one ((id, doc) :: tl) [] [("$push", .obj [(f, v)])]
       = (some 1, (id, assocSet doc f (.list (l ++ [v]))) :: tl))
  ∧ (Mem.update_one ((id, assocSet doc f (.list (l ++ [v]))) :: tl) []
       [("$pull", .obj [(f, v)])] = (some 1, (id, doc) :: tl)) := by
  have hget : assocGet (assocSet doc f (Value.list (l ++ [v]))) f
      = some (.list (l ++ [v])) := assocGet_set_self doc f _
  have hdoc : assocSet doc f (Value.list l) = doc :=
    assocSet_get_self doc f (Value.list l) hf
  have hcont : pyContains (.list (l ++ [v])) v = some true := by
    simp [pyContains, List.any_append]
  refine ⟨?_, ?_, ?_, ?_⟩
  · simp [DB.update_one, dbFind_empty_query, assocGet_set_self, assocGet,
          DB.applyPush, hf, pyItems, assocSet]
  · simp [DB.update_one, dbFind_empty_query, assocGet_set_self, assocGet,
          DB.applyPull, hget, filter_valNe_append_self l v hv,
          assocSet_set_same, hdoc, pyItems, assocSet]
  · simp [Mem.update_one, Mem.find_one, memFind_empty_query, assocGet_set_self,
          assocGet, Mem.applyPush, hf, pyItems, assocSet]
  · simp [Mem.update_one, Mem.find_one, memFind_empty_query, assocGet_set_self,
          assocGet, Mem.applyPull, hget, hcont, removeFirst_append_self l v hv,
          assocSet_set_same, hdoc, pyItems, assocSet]

/-- Witness for C4 at a concrete input: pushing `"p"` onto a
participants list `["x"]` (where it does not occur) and pulling it
again restores the store in both modules. -/
theorem c4_push_pull_restores_when_absent_witness :
    (DB.update_one [(.str "A", [("participants", Value.list [.str "x"])])] []
        [("$push", .obj [("participants", .str "p")])]
       = (some 1, [(.str "A",
            assocSet [("participants", Value.list [.str "x"])] "participants"
              (.list ([.str "x"] ++ [.str "p"])))]))
  ∧ (DB.update_one [(.str "A",
        assocSet [("participants", Value.list [.str "x"])] "participants"
          (.list ([.str "x"] ++ [.str "p"])))] []
        [("$pull", .obj [("participants", .str "p")])]
       = (some 1, [(.str "A", [("participants", Value.list [.str "x"])])]))
  ∧ (Mem.update_one [(.str "A", [("participants", Value.list [.str "x"])])] []
        [("$push", .obj [("participants", .str "p")])]
       = (some 1, [(.str "A",
            assocSet [("participants", Value.list [.str "x"])] "participants"
              (.list ([.str "x"] ++ [.str "p"])))]))
  ∧ (Mem.update_one [(.str "A",
        assocSet [("participants", Value.list [.str "x"])] "participants"
          (.list ([.str "x"] ++ [.str "p"])))] []
        [("$pull", .obj [("participants", .str "p")])]
       = (some 1, [(.str "A", [("participants", Value.list [.str "x"])])])) :=
  c4_push_pull_restores_when_absent (.str "A") [("participants", Value.list [.str "x"])]
    [] "participants" (.str "p") [.str "x"] rfl (by decide)

theorem assocHas_of_mem_keys {α β : Type} [DecidableEq α] (m : List (α × β)) (k : α)
    (h : k ∈ m.map Prod.fst) : assocHas m k = true := by
  induction m with
  | nil => simp at h
  | cons p rest ih =>
    obtain ⟨k2, w⟩ := p
    by_cases h2 : k2 = k
    · simp [assocHas, assocGet, h2]
    · simp only [List.map_cons, List.mem_cons] at h
      rcases h with h | h
      · exact absurd h.symm h2
      · simp only [assocHas, assocGet, if_neg h2]
        exact ih h

theorem mem_of_assocGet {α β : Type} [DecidableEq α] {m : List (α × β)} {k : α} {v : β}
    (h : assocGet m k = some v) : (k, v) ∈ m := by
  induction m with
  | nil => simp [assocGet] at h
  | cons p rest ih =>
    obtain ⟨k2, w⟩ := p
    by_cases h2 : k2 = k
    · subst h2
      simp [assocGet] at h
      simp [h]
    · simp only [assocGet, if_neg h2] at h
      exact List.mem_cons_of_mem _ (ih h)

theorem nodup_keys_assocSet {α β : Type} [DecidableEq α] (m : List (α × β)) (k : α) (v : β)
    (h : (m.map Prod.fst).Nodup) : ((assocSet m k v).map Prod.fst).Nodup := by
  rw [keys_assocSet]
  by_cases h2 : assocHas m k
  · simp [h2, h]
  · simp only [h2, if_false]
    have hnk : k ∉ m.map Prod.fst := by
      intro hmem
      exact h2 (assocHas_of_mem_keys m k hmem)
    simp [List.nodup_append, h, hnk]

theorem all_bodies_assocSet (s : Store) (k : Value) (nd : Doc)
    (Q : Doc → Bool)
    (hall : (s.all fun p => Q p.2) = true) (hnd : Q nd = true) :
    ((assocSet s k nd).all fun p => Q p.2) = true := by
  rw [List.all_eq_true] at hall ⊢
  intro p hp
  rcases mem_assocSet hp with h | h
  · rw [h]
    exact hnd
  · exact hall p h

theorem storeInv_assocSet (s : Store) (k : Value) (nd : Doc)
    (hinv : storeInv s = true) (hk : assocHas s k = true)
    (hnd : assocHas nd "_id" = false) : storeInv (assocSet s k nd) = true := by
  simp only [storeInv, Bool.and_eq_true, decide_eq_true_eq] at hinv ⊢
  constructor
  · rw [keys_assocSet, if_pos hk]
    exact hinv.1
  · exact all_bodies_assocSet s k nd (fun d => !assocHas d "_id") hinv.2 (by simp only []; rw [hnd]; rfl)

theorem dbApplyPush_no_id (items : List (String × Value)) :
    ∀ (doc : Doc), (items.all fun p => !(p.1 = "_id")) = true →
      assocHas doc "_id" = false →
      assocHas (DB.applyPush doc items).1 "_id" = false := by
  induction items with
  | nil => intro doc _ hdoc; exact hdoc
  | cons p rest ih =>
    intro doc hall hdoc
    obtain ⟨f, v⟩ := p
    simp only [List.all_cons, Bool.and_eq_true, Bool.not_eq_true', decide_eq_false_iff_not] at hall
    rcases hgd : (assocGet doc f).getD (Value.list []) with s2 | n2 | l2 | m2 <;>
      simp only [DB.applyPush, hgd]
    · exact hdoc
    · exact hdoc
    · refine ih _ (by simp [hall.2]) ?_
      simp only [assocHas] at hdoc ⊢
      rw [assocGet_set_ne doc f "_id" _ (Ne.symm hall.1)]
      exact hdoc
    · exact hdoc

theorem memApplyPush_no_id (items : List (String × Value)) :
    ∀ (doc : Doc), (items.all fun p => !(p.1 = "_id")) = true →
      assocHas doc "_id" = false →
      assocHas (Mem.applyPush doc items).1 "_id" = false := by
  induction items with
  | nil => intro doc _ hdoc; exact hdoc
  | cons p rest ih =>
    intro doc hall hdoc
    obtain ⟨f, v⟩ := p
    simp only [List.all_cons, Bool.and_eq_true, Bool.not_eq_true', decide_eq_false_iff_not] at hall
    have hset : assocHas (assocSet doc f (Value.list [v])) "_id" = false := by
      simp only [assocHas] at hdoc ⊢
      rw [assocGet_set_ne doc f "_id" _ (Ne.symm hall.1)]
      exact hdoc
    rcases hgd : assocGet doc f with _ | w
    · simp only [Mem.applyPush, hgd]
      exact ih _ (by simp [hall.2]) hset
    · rcases w with s2 | n2 | l2 | m2 <;> simp only [Mem.applyPush, hgd]
      · exact hdoc
      · exact hdoc
      · refine ih _ (by simp [hall.2]) ?_
        simp only [assocHas] at hdoc ⊢
        rw [assocGet_set_ne doc f "_id" _ (Ne.symm hall.1)]
        exact hdoc
      · exact hdoc

theorem dbApplyPull_no_id (items : List (String × Value)) :
    ∀ (doc : Doc), assocHas doc "_id" = false →
      assocHas (DB.applyPull doc items) "_id" = false := by
  induction items with
  | nil => intro doc hdoc; exact hdoc
  | cons p rest ih =>
    intro doc hdoc
    obtain ⟨f, v⟩ := p
    have hfne : ∀ w, assocGet doc f = some w → f ≠ "_id" := by
      intro w hw hf
      rw [hf] at hw
      simp only [assocHas, hw] at hdoc
      cases hdoc
    rcases hgd : assocGet doc f with _ | w
    · simp only [DB.applyPull, hgd]
      exact ih doc hdoc
    · rcases w with s2 | n2 | l2 | m2 <;> simp only [DB.applyPull, hgd]
      · exact ih doc hdoc
      · exact ih doc hdoc
      · refine ih _ ?_
        simp only [assocHas] at hdoc ⊢
        rw [assocGet_set_ne doc f "_id" _ (Ne.symm (hfne _ hgd))]
        exact hdoc
      · exact ih doc hdoc

theorem memApplyPull_no_id (items : List (String × Value)) :
    ∀ (doc : Doc), assocHas doc "_id" = false →
      assocHas (Mem.applyPull doc items).1 "_id" = false := by
  induction items with
  | nil => intro doc hdoc; exact hdoc
  | cons p rest ih =>
    intro doc hdoc
    obtain ⟨f, v⟩ := p
    have hfne : ∀ w, assocGet doc f = some w → f ≠ "_id" := by
      intro w hw hf
      rw [hf] at hw
      simp only [assocHas, hw] at hdoc
      cases hdoc
    rcases hgd : assocGet doc f with _ | w
    · simp only [Mem.applyPull, hgd]
      exact ih doc hdoc
    · simp only [Mem.applyPull, hgd]
      rcases hc : pyContains w v with _ | b
      · exact hdoc
      · cases b
        · exact ih doc hdoc
        · rcases w with s2 | n2 | l2 | m2
          · exact hdoc
          · exact hdoc
          · refine ih _ ?_
            simp only [assocHas] at hdoc ⊢
            rw [assocGet_set_ne doc f "_id" _ (Ne.symm (hfne _ hgd))]
            exact hdoc
          · exact hdoc

theorem dbUpdate_one_inv (s : Store) (q u : List (String × Value))
    (hinv : storeInv s = true)
    (hu : (match assocGet u "$push" with
           | some (.obj m) => m.all fun p => !(p.1 = "_id")
           | _ => true) = true) :
    storeInv (DB.update_one s q u).2 = true := by
  have hall : (s.all fun p => !assocHas p.2 "_id") = true := by
    have h2 := hinv
    simp only [storeInv, Bool.and_eq_true] at h2
    exact h2.2
  rcases hfind : DB.find s q with _ | rs
  · simpa [DB.update_one, hfind] using hinv
  rcases rs with _ | ⟨r, rs2⟩
  · simpa [DB.update_one, hfind] using hinv
  rcases hid : assocGet r "_id" with _ | docId
  · simpa [DB.update_one, hfind, hid] using hinv
  rcases hbody : assocGet s docId with _ | body
  · simpa [DB.update_one, hfind, hid, hbody] using hinv
  have hk : assocHas s docId = true := by simp [assocHas, hbody]
  have hbodyOk : assocHas body "_id" = false := by
    have hm := List.all_eq_true.mp hall _ (mem_of_assocGet hbody)
    simpa using hm
  rcases hpush : assocGet u "$push" with _ | pv
  · rcases hpull : assocGet u "$pull" with _ | pullv
    · simp only [DB.update_one, hfind, hid, hbody, hpush, hpull]
      exact storeInv_assocSet s docId body hinv hk hbodyOk
    · rcases hpv : pyItems pullv with _ | pitems
      · simpa [DB.update_one, hfind, hid, hbody, hpush, hpull, hpv] using hinv
      · simp only [DB.update_one, hfind, hid, hbody, hpush, hpull, hpv]
        exact storeInv_assocSet s docId _ hinv hk
          (dbApplyPull_no_id pitems body hbodyOk)
  · rcases hpv : pyItems pv with _ | items
    · simpa [DB.update_one, hfind, hid, hbody, hpush, hpv] using hinv
    · have hitems : (items.all fun p => !(p.1 = "_id")) = true := by
        rcases pv with s2 | n2 | l2 | m2 <;> simp [pyItems] at hpv
        rw [hpush] at hu
        rw [hpv] at hu
        exact hu
      rcases happ : DB.applyPush body items with ⟨doc1, ok⟩
      have hdoc1 : assocHas doc1 "_id" = false := by
        have hh := dbApplyPush_no_id items body hitems hbodyOk
        rw [happ] at hh
        exact hh
      cases ok
      · simp only [DB.update_one, hfind, hid, hbody, hpush, hpv, happ]
        exact storeInv_assocSet s docId doc1 hinv hk hdoc1
      · rcases hpull : assocGet u "$pull" with _ | pullv
        · simp only [DB.update_one, hfind, hid, hbody, hpush, hpv, happ, hpull]
          exact storeInv_assocSet s docId doc1 hinv hk hdoc1
        · rcases hpv2 : pyItems pullv with _ | pitems
          · simp only [DB.update_one, hfind, hid, hbody, hpush, hpv, happ, hpull, hpv2]
            exact storeInv_assocSet s docId doc1 hinv hk hdoc1
          · simp only [DB.update_one, hfind, hid, hbody, hpush, hpv, happ, hpull, hpv2]
            exact storeInv_assocSet s docId _ hinv hk
              (dbApplyPull_no_id pitems doc1 hdoc1)

theorem memUpdate_one_inv (s : Store) (q u : List (String × Value))
    (hinv : storeInv s = true)
    (hu : (match assocGet u "$push" with
           | some (.obj m) => m.all fun p => !(p.1 = "_id")
           | _ => true) = true) :
    storeInv (Mem.update_one s q u).2 = true := by
  have hall : (s.all fun p => !assocHas p.2 "_id") = true := by
    have h2 := hinv
    simp only [storeInv, Bool.and_eq_true] at h2
    exact h2.2
  rcases hfind : Mem.find_one s q with _ | ro
  · simpa [Mem.update_one, hfind] using hinv
  rcases ro with _ | r
  · simpa [Mem.update_one, hfind] using hinv
  rcases hid : assocGet r "_id" with _ | docId
  · simpa [Mem.update_one, hfind, hid] using hinv
  rcases hbody : assocGet s docId with _ | body
  · simpa [Mem.update_one, hfind, hid, hbody] using hinv
  have hk : assocHas s docId = true := by simp [assocHas, hbody]
  have hbodyOk : assocHas body "_id" = false := by
    have hm := List.all_eq_true.mp hall _ (mem_of_assocGet hbody)
    simpa using hm
  rcases hpush : assocGet u "$push" with _ | pv
  · rcases hpull : assocGet u "$pull" with _ | pullv
    · simp only [Mem.update_one, hfind, hid, hbody, hpush, hpull]
      exact storeInv_assocSet s docId body hinv hk hbodyOk
    · rcases hpv : pyItems pullv with _ | pitems
      · simpa [Mem.update_one, hfind, hid, hbody, hpush, hpull, hpv] using hinv
      · rcases hap : Mem.applyPull body pitems with ⟨doc2, ok2⟩
        have hdoc2 : assocHas doc2 "_id" = false := by
          have hh := memApplyPull_no_id pitems body hbodyOk
          rw [hap] at hh
          exact hh
        simp only [Mem.update_one, hfind, hid, hbody, hpush, hpull, hpv, hap]
        exact storeInv_assocSet s docId doc2 hinv hk hdoc2
  · rcases hpv : pyItems pv with _ | items
    · simpa [Mem.update_one, hfind, hid, hbody, hpush, hpv] using hinv
    · have hitems : (items.all fun p => !(p.1 = "_id")) = true := by
        rcases pv with s2 | n2 | l2 | m2 <;> simp [pyItems] at hpv
        rw [hpush] at hu
        rw [hpv] at hu
        exact hu
      rcases happ : Mem.applyPush body items with ⟨doc1, ok⟩
      have hdoc1 : assocHas doc1 "_id" = false := by
        have hh := memApplyPush_no_id items body hitems hbodyOk
        rw [happ] at hh
        exact hh
      cases ok
      · simp only [Mem.update_one, hfind, hid, hbody, hpush, hpv, happ]
        exact storeInv_assocSet s docId doc1 hinv hk hdoc1
      · rcases hpull : assocGet u "$pull" with _ | pullv
        · simp only [Mem.update_one, hfind, hid, hbody, hpush, hpv, happ, hpull]
          exact storeInv_assocSet s docId doc1 hinv hk hdoc1
        · rcases hpv2 : pyItems pullv with _ | pitems
          · simp only [Mem.update_one, hfind, hid, hbody, hpush, hpv, happ, hpull, hpv2]
            exact storeInv_assocSet s docId doc1 hinv hk hdoc1
          · rcases hap : Mem.applyPull doc1 pitems with ⟨doc2, ok2⟩
            have hdoc2 : assocHas doc2 "_id" = false := by
              have hh := memApplyPull_no_id pitems doc1 hdoc1
              rw [hap] at hh
              exact hh
            simp only [Mem.update_one, hfind, hid, hbody, hpush, hpv, happ, hpull, hpv2, hap]
            exact storeInv_assocSet s docId doc2 hinv hk hdoc2

theorem uniqueIds_assocSet (s : Store) (k : Value) (nd : Doc)
    (h : uniqueIds s = true) (hk : assocHas s k = true) :
    uniqueIds (assocSet s k nd) = true := by
  simp only [uniqueIds, decide_eq_true_eq] at h ⊢
  rw [keys_assocSet, if_pos hk]
  exact h

theorem dbUpdate_one_unique (s : Store) (q u : List (String × Value))
    (h : uniqueIds s = true) : uniqueIds (DB.update_one s q u).2 = true := by
  rcases hfind : DB.find s q with _ | rs
  · simpa [DB.update_one, hfind] using h
  rcases rs with _ | ⟨r, rs2⟩
  · simpa [DB.update_one, hfind] using h
  rcases hid : assocGet r "_id" with _ | docId
  · simpa [DB.update_one, hfind, hid] using h
  rcases hbody : assocGet s docId with _ | body
  · simpa [DB.update_one, hfind, hid, hbody] using h
  have hk : assocHas s docId = true := by simp [assocHas, hbody]
  rcases hpush : assocGet u "$push" with _ | pv
  · rcases hpull : assocGet u "$pull" with _ | pullv
    · simp only [DB.update_one, hfind, hid, hbody, hpush, hpull]
      exact uniqueIds_assocSet s docId body h hk
    · rcases hpv : pyItems pullv with _ | pitems
      · simpa [DB.update_one, hfind, hid, hbody, hpush, hpull, hpv] using h
      · simp only [DB.update_one, hfind, hid, hbody, hpush, hpull, hpv]
        exact uniqueIds_assocSet s docId _ h hk
  · rcases hpv : pyItems pv with _ | items
    · simpa [DB.update_one, hfind, hid, hbody, hpush, hpv] using h
    · rcases happ : DB.applyPush body items with ⟨doc1, ok⟩
      cases ok
      · simp only [DB.update_one, hfind, hid, hbody, hpush, hpv, happ]
        exact uniqueIds_assocSet s docId doc1 h hk
      · rcases hpull : assocGet u "$pull" with _ | pullv
        · simp only [DB.update_one, hfind, hid, hbody, hpush, hpv, happ, hpull]
          exact uniqueIds_assocSet s docId doc1 h hk
        · rcases hpv2 : pyItems pullv with _ | pitems
          · simp only [DB.update_one, hfind, hid, hbody, hpush, hpv, happ, hpull, hpv2]
            exact uniqueIds_assocSet s docId doc1 h hk
          · simp only [DB.update_one, hfind, hid, hbody, hpush, hpv, happ, hpull, hpv2]
            exact uniqueIds_assocSet s docId _ h hk

theorem memUpdate_one_unique (s : Store) (q u : List (String × Value))
    (h : uniqueIds s = true) : uniqueIds (Mem.update_one s q u).2 = true := by
  rcases hfind : Mem.find_one s q with _ | ro
  · simpa [Mem.update_one, hfind] using h
  rcases ro with _ | r
  · simpa [Mem.update_one, hfind] using h
  rcases hid : assocGet r "_id" with _ | docId
  · simpa [Mem.update_one, hfind, hid] using h
  rcases hbody : assocGet s docId with _ | body
  · simpa [Mem.update_one, hfind, hid, hbody] using h
  have hk : assocHas s docId = true := by simp [assocHas, hbody]
  rcases hpush : assocGet u "$push" with _ | pv
  · rcases hpull : assocGet u "$pull" with _ | pullv
    · simp only [Mem.update_one, hfind, hid, hbody, hpush, hpull]
      exact uniqueIds_assocSet s docId body h hk
    · rcases hpv : pyItems pullv with _ | pitems
      · simpa [Mem.update_one, hfind, hid, hbody, hpush, hpull, hpv] using h
      · rcases hap : Mem.applyPull body pitems with ⟨doc2, ok2⟩
        simp only [Mem.update_one, hfind, hid, hbody, hpush, hpull, hpv, hap]
        exact uniqueIds_assocSet s docId doc2 h hk
  · rcases hpv : pyItems pv with _ | items
    · simpa [Mem.update_one, hfind, hid, hbody, hpush, hpv] using h
    · rcases happ : Mem.applyPush body items with ⟨doc1, ok⟩
      cases ok
      · simp only [Mem.update_one, hfind, hid, hbody, hpush, hpv, happ]
        exact uniqueIds_assocSet s docId doc1 h hk
      · rcases hpull : assocGet u "$pull" with _ | pullv
        · simp only [Mem.update_one, hfind, hid, hbody, hpush, hpv, happ, hpull]
          exact uniqueIds_assocSet s docId doc1 h hk
        · rcases hpv2 : pyItems pullv with _ | pitems
          · simp only [Mem.update_one, hfind, hid, hbody, hpush, hpv, happ, hpull, hpv2]
            exact uniqueIds_assocSet s docId doc1 h hk
          · rcases hap : Mem.applyPull doc1 pitems with ⟨doc2, ok2⟩
            simp only [Mem.update_one, hfind, hid, hbody, hpush, hpv, happ, hpull,
              hpv2, hap]
            exact uniqueIds_assocSet s docId doc2 h hk

/-- C9 amended: every operation preserves the uniqueness of
identifiers within a collection, unconditionally — updates store
under an already-present key, inserts replace or append a single
key; and every operation except `update_one` with a `$push` field
map naming `_id` also preserves the property that no stored body
contains its own identifier field internally (inserted documents
being honest dictionaries without duplicate fields) — in both
modules.  (The counterexample shows `$push` of `_id` breaks the
second half.) -/
theorem c9_operations_preserve_invariant (op : Op) (s : Store) :
    (uniqueIds s = true →
       uniqueIds (DB.step op s).2 = true ∧ uniqueIds (Mem.step op s).2 = true)
  ∧ (storeInv s = true → opKeepsInv op = true →
       storeInv (DB.step op s).2 = true ∧ storeInv (Mem.step op s).2 = true) := by
  constructor
  · intro h1
    cases op with
    | find q => exact ⟨h1, h1⟩
    | findOne q => exact ⟨h1, h1⟩
    | countDocs q => exact ⟨h1, h1⟩
    | aggregate p => exact ⟨h1, h1⟩
    | insertOne d =>
      rcases hins : assocGet d "_id" with _ | id
      · constructor
        · simpa [DB.step, DB.insert_one, hins] using h1
        · simpa [Mem.step, Mem.insert_one, hins] using h1
      · cases hh : pyHashable id
        · constructor
          · simpa [DB.step, DB.insert_one, hins, hh] using h1
          · simpa [Mem.step, Mem.insert_one, hins, hh] using h1
        · have hset : uniqueIds (assocSet s id (assocErase d "_id")) = true := by
            simp only [uniqueIds, decide_eq_true_eq] at h1 ⊢
            exact nodup_keys_assocSet s id _ h1
          constructor
          · simpa [DB.step, DB.insert_one, hins, hh] using hset
          · simpa [Mem.step, Mem.insert_one, hins, hh] using hset
    | updateOne q u =>
      constructor
      · have hstep : (DB.step (.updateOne q u) s).2 = (DB.update_one s q u).2 := by
          rcases hup : DB.update_one s q u with ⟨oc, s2⟩
          cases oc <;> simp [DB.step, hup]
        rw [hstep]
        exact dbUpdate_one_unique s q u h1
      · have hstep : (Mem.step (.updateOne q u) s).2 = (Mem.update_one s q u).2 := by
          rcases hup : Mem.update_one s q u with ⟨oc, s2⟩
          cases oc <;> simp [Mem.step, hup]
        rw [hstep]
        exact memUpdate_one_unique s q u h1
  · intro h1 h2
    cases op with
    | find q => exact ⟨h1, h1⟩
    | findOne q => exact ⟨h1, h1⟩
    | countDocs q => exact ⟨h1, h1⟩
    | aggregate p => exact ⟨h1, h1⟩
    | insertOne d =>
      rcases hins : assocGet d "_id" with _ | id
      · constructor
        · simpa [DB.step, DB.insert_one, hins] using h1
        · simpa [Mem.step, Mem.insert_one, hins] using h1
      · cases hh : pyHashable id
        · constructor
          · simpa [DB.step, DB.insert_one, hins, hh] using h1
          · simpa [Mem.step, Mem.insert_one, hins, hh] using h1
        · have hnodup : (d.map Prod.fst).Nodup := by
            simpa [opKeepsInv] using h2
          have hbody : assocHas (assocErase d "_id") "_id" = false := by
            simp [assocHas, assocGet_erase_self d "_id" hnodup]
          have hset : storeInv (assocSet s id (assocErase d "_id")) = true := by
            simp only [storeInv, Bool.and_eq_true, decide_eq_true_eq] at h1 ⊢
            refine ⟨nodup_keys_assocSet s id _ h1.1, ?_⟩
            exact all_bodies_assocSet s id _ (fun dd => !assocHas dd "_id") h1.2
              (by simp only []; rw [hbody]; rfl)
          constructor
          · simpa [DB.step, DB.insert_one, hins, hh] using hset
          · simpa [Mem.step, Mem.insert_one, hins, hh] using hset
    | updateOne q u =>
      have hu : (match assocGet u "$push" with
                 | some (.obj m) => m.all fun p => !(p.1 = "_id")
                 | _ => true) = true := by
        simpa [opKeepsInv] using h2
      constructor
      · have hstep : (DB.step (.updateOne q u) s).2 = (DB.update_one s q u).2 := by
          rcases hup : DB.update_one s q u with ⟨oc, s2⟩
          cases oc <;> simp [DB.step, hup]
        rw [hstep]
        exact dbUpdate_one_inv s q u h1 hu
      · have hstep : (Mem.step (.updateOne q u) s).2 = (Mem.update_one s q u).2 := by
          rcases hup : Mem.update_one s q u with ⟨oc, s2⟩
          cases oc <;> simp [Mem.step, hup]
        rw [hstep]
        exact memUpdate_one_inv s q u h1 hu

/-- Witness for C9 at a concrete input: a push of `participants` on
a one-document store keeps both halves of the invariant in both
modules. -/
theorem c9_operations_preserve_invariant_witness :
    (uniqueIds (DB.step (.updateOne [] [("$push", .obj [("participants", .str "p")])])
        [(.str "A", [("participants", Value.list [])])]).2 = true
     ∧ uniqueIds (Mem.step (.updateOne [] [("$push", .obj [("participants", .str "p")])])
        [(.str "A", [("participants", Value.list [])])]).2 = true)
  ∧ (storeInv (DB.step (.updateOne [] [("$push", .obj [("participants", .str "p")])])
        [(.str "A", [("participants", Value.list [])])]).2 = true
     ∧ storeInv (Mem.step (.updateOne [] [("$push", .obj [("participants", .str "p")])])
        [(.str "A", [("participants", Value.list [])])]).2 = true) :=
  ⟨(c9_operations_preserve_invariant
      (.updateOne [] [("$push", .obj [("participants", .str "p")])])
      [(.str "A", [("participants", Value.list [])])]).1 (by decide),
   (c9_operations_preserve_invariant
      (.updateOne [] [("$push", .obj [("participants", .str "p")])])
      [(.str "A", [("participants", Value.list [])])]).2 (by decide) (by decide)⟩

theorem matchQuery_plain (doc : Doc) (id : Value) (q : List (String × Value))
    (hq : plainQuery q = true) :
    DB.matchQuery doc q = Mem.matchQuery (assocSet doc "_id" id) q := by
  induction q with
  | nil => rfl
  | cons p rest ih =>
    obtain ⟨k, v⟩ := p
    simp only [plainQuery, List.all_cons, Bool.and_eq_true] at hq
    have hk := hq.1
    simp only [plainKey, Bool.and_eq_true, Bool.not_eq_true'] at hk
    have hdot : strHasDot k = false := hk.1
    have hid : k ≠ "_id" := by
      intro hh
      rw [hh] at hk
      simpa using hk.2
    have h1 : ¬(k = "schedule_details.days") := by
      intro hh
      rw [hh] at hdot
      exact absurd hdot (by decide)
    have h2 : ¬(k = "schedule_details.start_time") := by
      intro hh
      rw [hh] at hdot
      exact absurd hdot (by decide)
    have h3 : ¬(k = "schedule_details.end_time") := by
      intro hh
      rw [hh] at hdot
      exact absurd hdot (by decide)
    have hrest := ih hq.2
    have hget : assocGet (assocSet doc "_id" id) k = assocGet doc k :=
      assocGet_set_ne doc "_id" k id hid
    rcases hg : assocGet doc k with _ | w
    · simp [DB.matchQuery, DB.matchKey, if_neg h1, if_neg h2, if_neg h3, hg,
            Mem.matchQuery, hget]
    · cases hne : valNe w v
      · simp [DB.matchQuery, DB.matchKey, if_neg h1, if_neg h2, if_neg h3, hg, hne,
              Mem.matchQuery, hget, hdot, hrest]
      · simp [DB.matchQuery, DB.matchKey, if_neg h1, if_neg h2, if_neg h3, hg, hne,
              Mem.matchQuery, hget, hdot]

theorem find_plain (s : Store) (q : List (String × Value))
    (hq : plainQuery q = true) : DB.find s q = Mem.find s q := by
  induction s with
  | nil => rfl
  | cons p rest ih =>
    obtain ⟨id, doc⟩ := p
    simp only [DB.find, Mem.find, matchQuery_plain doc id q hq, ih]

/-- C2 amended: on the fragment of calls whose query keys carry no
dot and are not `_id` — `find`, `find_one`, `count_documents` and
`insert_one` — the two modules, run from equal stores, leave equal
stores and return agreeing results (equal, except that an insert is
acknowledged with the inserted identifier by one module and with
`True` by the other).  Outside this fragment they diverge, as the
counterexample shows. -/
theorem c2_plain_fragment_equivalent : ∀ (ops : List Op) (s : Store),
    ops.all plainOp = true →
    (DB.run ops s).2 = (Mem.run ops s).2
  ∧ List.Forall₂ resultAgrees (DB.run ops s).1 (Mem.run ops s).1 := by
  intro ops
  induction ops with
  | nil => exact fun s _ => ⟨rfl, List.Forall₂.nil⟩
  | cons op rest ih =>
    intro s h
    simp only [List.all_cons, Bool.and_eq_true] at h
    obtain ⟨h1, h2⟩ := h
    have hstep : (DB.step op s).2 = (Mem.step op s).2
        ∧ resultAgrees (DB.step op s).1 (Mem.step op s).1 := by
      cases op with
      | find q =>
        have hf := find_plain s q (by simpa [plainOp] using h1)
        exact ⟨rfl, by simp [DB.step, Mem.step, hf, resultAgrees]⟩
      | findOne q =>
        have hf := find_plain s q (by simpa [plainOp] using h1)
        exact ⟨rfl, by simp [DB.step, Mem.step, DB.find_one, Mem.find_one, hf, resultAgrees]⟩
      | countDocs q =>
        have hf := find_plain s q (by simpa [plainOp] using h1)
        exact ⟨rfl, by
          simp [DB.step, Mem.step, DB.count_documents, Mem.count_documents, hf, resultAgrees]⟩
      | insertOne d =>
        rcases hins : assocGet d "_id" with _ | id
        · have hdb : DB.step (.insertOne d) s = (.error, s) := by
            simp [DB.step, DB.insert_one, hins]
          have hm : Mem.step (.insertOne d) s = (.error, s) := by
            simp [Mem.step, Mem.insert_one, hins]
          rw [hdb, hm]
          exact ⟨rfl, Or.inl rfl⟩
        · cases hh : pyHashable id
          · have hdb : DB.step (.insertOne d) s = (.error, s) := by
              simp [DB.step, DB.insert_one, hins, hh]
            have hm : Mem.step (.insertOne d) s = (.error, s) := by
              simp [Mem.step, Mem.insert_one, hins, hh]
            rw [hdb, hm]
            exact ⟨rfl, Or.inl rfl⟩
          · have hdb : DB.step (.insertOne d) s
                = (.insertedId id, assocSet s id (assocErase d "_id")) := by
              simp [DB.step, DB.insert_one, hins, hh]
            have hm : Mem.step (.insertOne d) s
                = (.ok, assocSet s id (assocErase d "_id")) := by
              simp [Mem.step, Mem.insert_one, hins, hh]
            rw [hdb, hm]
            exact ⟨rfl, Or.inr ⟨id, rfl, rfl⟩⟩
      | updateOne q u => simp [plainOp] at h1
      | aggregate p => simp [plainOp] at h1
    rcases hds : DB.step op s with ⟨r1, s1⟩
    rcases hms : Mem.step op s with ⟨r2, s2⟩
    rw [hds, hms] at hstep
    simp only at hstep
    obtain ⟨hss, hrr⟩ := hstep
    subst hss
    have hrest := ih s1 h2
    constructor
    · show (DB.run (op :: rest) s).2 = (Mem.run (op :: rest) s).2
      simp only [DB.run, Mem.run, hds, hms]
      exact hrest.1
    · show List.Forall₂ resultAgrees (DB.run (op :: rest) s).1 (Mem.run (op :: rest) s).1
      simp only [DB.run, Mem.run, hds, hms]
      exact List.Forall₂.cons hrr hrest.2

/-- Witness for C2 at a concrete run: an insert followed by a plain
equality find and a count, from the empty store. -/
theorem c2_plain_fragment_equivalent_witness :
    (DB.run [.insertOne [("_id", .str "A"), ("x", .int 1)],
             .find [("x", .int 1)], .countDocs []] []).2
      = (Mem.run [.insertOne [("_id", .str "A"), ("x", .int 1)],
                  .find [("x", .int 1)], .countDocs []] []).2
  ∧ List.Forall₂ resultAgrees
      (DB.run [.insertOne [("_id", .str "A"), ("x", .int 1)],
               .find [("x", .int 1)], .countDocs []] []).1
      (Mem.run [.insertOne [("_id", .str "A"), ("x", .int 1)],
                .find [("x", .int 1)], .countDocs []] []).1 :=
  c2_plain_fragment_equivalent
    [.insertOne [("_id", .str "A"), ("x", .int 1)],
     .find [("x", .int 1)], .countDocs []] [] (by decide)

theorem pyAny_total (f : Value → Option Bool) (l : List Value)
    (h : ∀ x ∈ l, (f x).isSome = true) : (pyAny f l).isSome = true := by
  induction l with
  | nil => rfl
  | cons x xs ih =>
    rcases hfx : f x with _ | b
    · have hx := h x (List.mem_cons_self x xs)
      rw [hfx] at hx
      cases hx
    · cases b
      · simp only [pyAny, hfx, Option.bind_some, Bool.false_eq_true, if_false]
        exact ih fun y hy => h y (List.mem_cons_of_mem x hy)
      · simp [pyAny, hfx]

theorem WFDoc_sched (doc : Doc) (hdoc : WFDoc doc = true) :
    assocGet doc "schedule_details" = none ∨
    ∃ sd, assocGet doc "schedule_details" = some (.obj sd) ∧
      (match assocGet sd "days" with
       | none => true | some (.list _) => true | some _ => false) = true ∧
      (match assocGet sd "start_time" with
       | none => true | some (.str _) => true | some _ => false) = true ∧
      (match assocGet sd "end_time" with
       | none => true | some (.str _) => true | some _ => false) = true := by
  simp only [WFDoc, Bool.and_eq_true] at hdoc
  rcases hsd : assocGet doc "schedule_details" with _ | w
  · exact Or.inl rfl
  · have hd2 := hdoc.2
    rw [hsd] at hd2
    rcases w with s2 | n2 | l2 | sd
    · cases hd2
    · cases hd2
    · cases hd2
    · simp only [Bool.and_eq_true] at hd2
      exact Or.inr ⟨sd, rfl, hd2.1.1, hd2.1.2, hd2.2⟩

theorem pyLt_str (a b : String) : pyLt (.str a) (.str b) = some (strLt a b) := rfl

theorem DB.matchKey_total (doc : Doc) (k : String) (v : Value)
    (hdoc : WFDoc doc = true) (hv : supportedEntry k v = true) :
    (DB.matchKey doc k v).isSome = true := by
  by_cases h1 : k = "schedule_details.days"
  · subst h1
    have hvv := hv
    have hdot : strHasDot "schedule_details.days" = true := by decide
    simp only [supportedEntry, hdot, if_true] at hvv
    rcases v with s2 | n2 | l2 | m
    · simp at hvv
    · simp at hvv
    · simp at hvv
    · simp only [Bool.and_eq_true] at hvv
      obtain ⟨⟨hin, hgte⟩, hlte⟩ := hvv
      rcases hga : assocGet m "$in" with _ | w
      · simp [DB.matchKey, pyContains, assocHas, hga]
      · rcases w with s3 | n3 | days | m3 <;> rw [hga] at hin
        · simp at hin
        · simp at hin
        · rcases WFDoc_sched doc hdoc with hsd | ⟨sd, hsd, hdays, hst, het⟩
          · simp [DB.matchKey, pyContains, assocHas, hga, pySubscr, hsd]
          · rcases hdy : assocGet sd "days" with _ | w2
            · simp [DB.matchKey, pyContains, assocHas, hga, pySubscr, hsd, hdy]
            · rcases w2 with s4 | n4 | c | m4 <;> rw [hdy] at hdays
              · simp at hdays
              · simp at hdays
              · simp only [DB.matchKey, if_pos rfl, pyContains, assocHas, hga,
                  Option.isSome_some, pySubscr, hsd, hdy, pyIter, Option.bind_some,
                  if_true]
                apply pyAny_total
                intro x hx
                simp [pySubscr, hdy, pyContains]
              · simp at hdays
        · simp at hin
  · by_cases h2 : k = "schedule_details.start_time"
    · subst h2
      have hvv := hv
      have hdot : strHasDot "schedule_details.start_time" = true := by decide
      simp only [supportedEntry, hdot, if_true] at hvv
      rcases v with s2 | n2 | l2 | m
      · simp at hvv
      · simp at hvv
      · simp at hvv
      · simp only [Bool.and_eq_true] at hvv
        obtain ⟨⟨hin, hgte⟩, hlte⟩ := hvv
        rcases hga : assocGet m "$gte" with _ | w
        · simp [DB.matchKey, h1, pyContains, assocHas, hga]
        · rcases w with g | n3 | l3 | m3 <;> rw [hga] at hgte
          · rcases WFDoc_sched doc hdoc with hsd | ⟨sd, hsd, hdays, hst, het⟩
            · simp [DB.matchKey, h1, pyContains, assocHas, hga, pySubscr, hsd]
            · rcases hstt : assocGet sd "start_time" with _ | w2
              · simp [DB.matchKey, h1, pyContains, assocHas, hga, pySubscr, hsd, hstt]
              · rcases w2 with st | n4 | l4 | m4 <;> rw [hstt] at hst
                · simp [DB.matchKey, h1, pyContains, assocHas, hga, pySubscr, hsd,
                        hstt, pyLt_str]
                · simp at hst
                · simp at hst
                · simp at hst
          · simp at hgte
          · simp at hgte
          · simp at hgte
    · by_cases h3 : k = "schedule_details.end_time"
      · subst h3
        have hvv := hv
        have hdot : strHasDot "schedule_details.end_time" = true := by decide
        simp only [supportedEntry, hdot, if_true] at hvv
        rcases v with s2 | n2 | l2 | m
        · simp at hvv
        · simp at hvv
        · simp at hvv
        · simp only [Bool.and_eq_true] at hvv
          obtain ⟨⟨hin, hgte⟩, hlte⟩ := hvv
          rcases hga : assocGet m "$lte" with _ | w
          · simp [DB.matchKey, h1, h2, pyContains, assocHas, hga]
          · rcases w with g | n3 | l3 | m3 <;> rw [hga] at hlte
            · rcases WFDoc_sched doc hdoc with hsd | ⟨sd, hsd, hdays, hst, het⟩
              · simp [DB.matchKey, h1, h2, pyContains, assocHas, hga, pySubscr, hsd]
              · rcases hett : assocGet sd "end_time" with _ | w2
                · simp [DB.matchKey, h1, h2, pyContains, assocHas, hga, pySubscr,
                        hsd, hett]
                · rcases w2 with et | n4 | l4 | m4 <;> rw [hett] at het
                  · simp [DB.matchKey, h1, h2, pyContains, assocHas, hga, pySubscr,
                          hsd, hett, pyGt, pyLt_str]
                  · simp at het
                  · simp at het
                  · simp at het
            · simp at hlte
            · simp at hlte
            · simp at hlte
      · rcases hg : assocGet doc k with _ | w <;>
          simp [DB.matchKey, h1, h2, h3, hg]

theorem dbMatchQuery_total (doc : Doc) (q : List (String × Value))
    (hdoc : WFDoc doc = true) (hq : supportedQuery q = true) :
    (DB.matchQuery doc q).isSome = true := by
  induction q with
  | nil => rfl
  | cons p rest ih =>
    obtain ⟨k, v⟩ := p
    simp only [supportedQuery, List.all_cons, Bool.and_eq_true] at hq
    have hk := DB.matchKey_total doc k v hdoc hq.1
    rcases hmk : DB.matchKey doc k v with _ | b
    · rw [hmk] at hk
      cases hk
    · cases b
      · simp [DB.matchQuery, hmk]
      · simp only [DB.matchQuery, hmk, Option.bind_some, if_true]
        exact ih hq.2

theorem memMatchQuery_total (doc : Doc) (id : Value) (q : List (String × Value))
    (hdoc : WFDoc doc = true) :
    (Mem.matchQuery (assocSet doc "_id" id) q).isSome = true := by
  have hdotfree : ((assocSet doc "_id" id).all fun p => !strHasDot p.1) = true := by
    rw [List.all_eq_true]
    intro p hp
    rcases mem_assocSet hp with h | h
    · rw [h]
      show (!strHasDot "_id") = true
      decide
    · have hwf := hdoc
      simp only [WFDoc, Bool.and_eq_true] at hwf
      exact List.all_eq_true.mp hwf.1 p h
  induction q with
  | nil => rfl
  | cons p rest ih =>
    obtain ⟨k, v⟩ := p
    rcases hg : assocGet (assocSet doc "_id" id) k with _ | w
    · simp [Mem.matchQuery, hg]
    · cases hdot : strHasDot k
      · cases hne : valNe w v
        · simp only [Mem.matchQuery, hg, hdot, Bool.false_eq_true, if_false, hne]
          exact ih
        · simp [Mem.matchQuery, hg, hdot, hne]
      · have hnone := assocGet_eq_none_of_dotfree _ k hdotfree hdot
        rw [hg] at hnone
        cases hnone

/-- C7 amended: over well-formed stores (dot-free top-level field
names; `schedule_details`, when present, a dictionary with
list-valued `days` and string `start_time`/`end_time`), `find` with
any supported query never raises in either module: it returns
exactly the matching documents in store order, each a copy of the
body with the identifier attached, hence the empty sequence on an
empty store or when nothing matches.  (The counterexample shows a
supported query can raise on an ill-formed store.) -/
theorem c7_find_total_on_wellformed : ∀ (q : List (String × Value)),
    supportedQuery q = true → ∀ (s : Store), WFStore s = true →
    DB.find s q = some ((s.filter fun p =>
        decide (DB.matchQuery p.2 q = some true)).map
        fun p => assocSet p.2 "_id" p.1)
  ∧ Mem.find s q = some ((s.filter fun p =>
        decide (Mem.matchQuery (assocSet p.2 "_id" p.1) q = some true)).map
        fun p => assocSet p.2 "_id" p.1) := by
  intro q hq s
  induction s with
  | nil => exact fun _ => ⟨rfl, rfl⟩
  | cons p rest ih =>
    intro hs
    obtain ⟨id, doc⟩ := p
    simp only [WFStore, List.all_cons, Bool.and_eq_true] at hs
    have ihr := ih hs.2
    have hdb := dbMatchQuery_total doc q hs.1 hq
    have hmem := memMatchQuery_total doc id q hs.1
    rcases hmk : DB.matchQuery doc q with _ | b
    · rw [hmk] at hdb
      cases hdb
    · rcases hmk2 : Mem.matchQuery (assocSet doc "_id" id) q with _ | b2
      · rw [hmk2] at hmem
        cases hmem
      · constructor
        · cases b <;>
            simp [DB.find, hmk, ihr.1, List.filter]
        · cases b2 <;>
            simp [Mem.find, hmk2, ihr.2, List.filter]

/-- Witness for C7 at a concrete input: a well-formed one-activity
store and the Monday `$in` query. -/
theorem c7_find_total_on_wellformed_witness :
    DB.find [(.str "A", [("schedule_details",
        .obj [("days", .list [.str "Monday"]), ("start_time", .str "07:00"),
              ("end_time", .str "08:00")])])]
      [("schedule_details.days", .obj [("$in", .list [.str "Monday"])])]
      = some (([(.str "A", [("schedule_details",
          .obj [("days", .list [.str "Monday"]), ("start_time", .str "07:00"),
                ("end_time", .str "08:00")])])].filter (fun p =>
          decide (DB.matchQuery p.2
            [("schedule_details.days", .obj [("$in", .list [.str "Monday"])])]
            = some true))).map
          fun p => assocSet p.2 "_id" p.1)
  ∧ Mem.find [(.str "A", [("schedule_details",
        .obj [("days", .list [.str "Monday"]), ("start_time", .str "07:00"),
              ("end_time", .str "08:00")])])]
      [("schedule_details.days", .obj [("$in", .list [.str "Monday"])])]
      = some (([(.str "A", [("schedule_details",
          .obj [("days", .list [.str "Monday"]), ("start_time", .str "07:00"),
                ("end_time", .str "08:00")])])].filter (fun p =>
          decide (Mem.matchQuery (assocSet p.2 "_id" p.1)
            [("schedule_details.days", .obj [("$in", .list [.str "Monday"])])]
            = some true))).map
          fun p => assocSet p.2 "_id" p.1) :=
  c7_find_total_on_wellformed
    [("schedule_details.days", .obj [("$in", .list [.str "Monday"])])] (by decide)
    [(.str "A", [("schedule_details",
        .obj [("days", .list [.str "Monday"]), ("start_time", .str "07:00"),
              ("end_time", .str "08:00")])])] (by decide)

/-- C6 amended: on the seed catalog, each module returns the sorted
distinct values of the hard-coded `schedule_details.days` field — the
seven weekday names, each exactly once — for the pipelines it
recognizes, and an empty list for every other shape with dictionary
stages.  `database.py` recognizes exactly-three-stage pipelines whose
first stage has an `$unwind` key and second a `$group` key, never
inspecting the unwound field name (see the counterexample);
`database_memory.py` recognizes pipelines of two or more stages whose
first stage maps `$unwind` to `"$schedule_details.days"`, never
inspecting the second stage. -/
theorem c6_aggregate_recognition :
    (∀ (m0 m1 m2 : List (String × Value)),
       DB.aggregate seedActivities [.obj m0, .obj m1, .obj m2]
         = some (if assocHas m0 "$unwind" && assocHas m1 "$group"
                 then weekdayDocsSorted else []))
  ∧ (∀ (p : List Value), p.length ≠ 3 → DB.aggregate seedActivities p = some [])
  ∧ (∀ (m0 : List (String × Value)) (r : Value) (rest : List Value),
       Mem.aggregate seedActivities (.obj m0 :: r :: rest)
         = some (if assocGet m0 "$unwind" = some (.str "$schedule_details.days")
                 then weekdayDocsSorted else []))
  ∧ (∀ (p : List Value), p.length ≤ 1 → Mem.aggregate seedActivities p = some []) := by
  refine ⟨?_, ?_, ?_, ?_⟩
  · intro m0 m1 m2
    cases h0 : assocHas m0 "$unwind"
    · simp [DB.aggregate, pyContains, h0]
    · cases h1 : assocHas m1 "$group"
      · simp [DB.aggregate, pyContains, h0, h1]
      · have hdays : ((collectDays seedActivities).bind fun days =>
            (sortedSet days).bind fun sorted =>
              some (List.map (fun d => ([("_id", d)] : Doc)) sorted))
            = some weekdayDocsSorted := rfl
        simp [DB.aggregate, pyContains, h0, h1]
        exact hdays
  · intro p hp
    rcases p with _ | ⟨a, _ | ⟨b, _ | ⟨c, _ | ⟨d, t⟩⟩⟩⟩
    · rfl
    · rfl
    · rfl
    · simp at hp
    · rfl
  · intro m0 r rest
    by_cases hc : assocGet m0 "$unwind" = some (Value.str "$schedule_details.days")
    · have hdays : ((collectDays seedActivities).bind fun days =>
          (sortedSet days).bind fun sorted =>
            some (List.map (fun d => ([("_id", d)] : Doc)) sorted))
          = some weekdayDocsSorted := rfl
      simp [Mem.aggregate, pyItems, hc]
      exact hdays
    · simp [Mem.aggregate, pyItems, hc]
  · intro p hp
    rcases p with _ | ⟨a, _ | ⟨b, t⟩⟩
    · rfl
    · rfl
    · simp at hp

/-- Witness for C6 at concrete pipelines: the canonical three-stage
days pipeline on `database.py`, a two-stage one on
`database_memory.py`, an unrecognized shape, and a short pipeline. -/
theorem c6_aggregate_recognition_witness :
    DB.aggregate seedActivities
        [.obj [("$unwind", .str "$schedule_details.days")],
         .obj [("$group", .obj [])], .obj [("$sort", .int 1)]]
      = some (if assocHas [("$unwind", Value.str "$schedule_details.days")] "$unwind"
                && assocHas [("$group", Value.obj [])] "$group"
              then weekdayDocsSorted else [])
  ∧ DB.aggregate seedActivities [.obj [("$match", .obj [])]] = some []
  ∧ Mem.aggregate seedActivities
        [.obj [("$unwind", .str "$schedule_details.days")], .obj [("$group", .obj [])]]
      = some (if assocGet [("$unwind", Value.str "$schedule_details.days")] "$unwind"
                = some (Value.str "$schedule_details.days")
              then weekdayDocsSorted else [])
  ∧ Mem.aggregate seedActivities [] = some [] :=
  ⟨c6_aggregate_recognition.1 [("$unwind", .str "$schedule_details.days")]
      [("$group", .obj [])] [("$sort", .int 1)],
   c6_aggregate_recognition.2.1 [.obj [("$match", .obj [])]] (by decide),
   c6_aggregate_recognition.2.2.1 [("$unwind", .str "$schedule_details.days")]
      (.obj [("$group", .obj [])]) [],
   c6_aggregate_recognition.2.2.2 [] (by decide)⟩
